import Mathlib

/-!
Shallow embedding of the reconciliation-and-aggregation core of the
`inventory-scanner` repository, together with proofs about the behaviour of
its operations.

Embedded source files:
* `src/inventory/scanner/runners/utils.py` — geometry/metric utilities
  (`iou_2d`, `minkowski_distance`, `get_center_point`, `localize_distance`);
* `src/inventory/scanner/dataprocessing/matchdetections.py` — the detection
  matcher (`MatchDetections.match`, `compare_matches`, `store_metric`);
* `src/inventory/scanner/dataprocessing/categorizetext.py` — the text
  categorizer (`categorize_by_longest_match`);
* `src/inventory/scanner/dataprocessing/processcount.py` — count aggregation
  (`ProcessCount.process_text_counts`);
* `src/inventory/scanner/dataprocessing/processthread.py` — the thread
  wrapper (`DataThread.join`);
* `src/inventory/scanner/statistics/packagecount.py` — `PackageCount`.

Python floats are modelled as elements of a linear ordered field (the
matcher and IoU layer are polymorphic; square roots force `ℝ` for the
centerpoint-distance layer).  Python exceptions are modelled with
`Except MatchError`.
-/

namespace InventoryScanner

/-- Error taxonomy.  The Python code raises `ValueError` at the two distinct
sites inside `iou_2d` (malformed box / out-of-range ratio, named
`InvalidInput` and `InvariantViolation` by the specification), `ValueError`
for an unknown metric in `store_metric` (`UnsupportedMetric`), `IndexError`
for an unchecked duplicate match in `compare_matches`, and `ValueError`
from `list.remove` when deriving the unmatched index lists.
`fuelExhausted` is the out-of-fuel marker of the fuelled embedding of the
recursive `compare_matches`; it never occurs for the fuel used by `match`
on a run the Python recursion completes. -/
inductive MatchError where
  | invalidInput
  | invariantViolation
  | unsupportedMetric
  | duplicateMatch
  | valueError
  | fuelExhausted
deriving DecidableEq

/-- Embeds `iou_2d` (`src/inventory/scanner/runners/utils.py`, lines 65-123).
The length-4 check of lines 97-99 is the outer pattern match; a box that is
not `[xmin, ymin, xmax, ymax]` raises (`InvalidInput`).  The numerical
guard of lines 120-121 raises on a ratio outside `[0, 1+eps]`
(`InvariantViolation`).  `eps` keeps the Python default `1e-10`. -/
def iou_2d {α : Type} [LinearOrderedField α] (box_a box_b : List α)
    (eps : α := 1 / 10 ^ 10) : Except MatchError α :=
  match box_a, box_b with
  | [ax1, ay1, ax2, ay2], [bx1, by1, bx2, by2] =>
    let x_a := max ax1 bx1
    let y_a := max ay1 by1
    let x_b := min ax2 bx2
    let y_b := min ay2 by2
    let inter_area := max (x_b - x_a) 0 * max (y_b - y_a) 0
    if inter_area = 0 then .ok 0
    else
      let box_a_area := |(ax2 - ax1) * (ay2 - ay1)|
      let box_b_area := |(bx2 - bx1) * (by2 - by1)|
      let iou := inter_area / (box_a_area + box_b_area - inter_area)
      if 1 + eps < iou ∨ iou < 0 then .error .invariantViolation
      else .ok iou
  | _, _ => .error .invalidInput

/-- Embeds `minkowski_distance` (`utils.py`, lines 125-154):
`np.power(np.sum(np.power(np.absolute(a - b), p)), 1/p)`, elementwise over
two equal-length coordinate vectors.  The outer fractional power is real
exponentiation. -/
noncomputable def minkowski_distance (center_a center_b : List ℝ)
    (p : ℕ := 2) : ℝ :=
  (List.zipWith (fun x y => |x - y| ^ p) center_a center_b).sum ^ ((1 : ℝ) / p)

/-- Embeds `get_center_point` (`utils.py`, lines 156-172). -/
noncomputable def get_center_point (box : List ℝ) : List ℝ :=
  let width := box.getD 2 0 - box.getD 0 0
  let height := box.getD 3 0 - box.getD 1 0
  [box.getD 0 0 + width / 2, box.getD 1 0 + height / 2]

/-- Embeds `localize_distance` (`utils.py`, lines 174-211).  Note two facts
of the source: `center_distance` is `minkowski_distance(box_a, box_b)`
applied to the whole 4-component boxes (not to their center points), and
the guard truncates the ratio with Python `int(...)` before comparing with
the leniency factor.  `int` truncates toward zero, which on the
nonnegative ratios arising here is the floor. -/
noncomputable def localize_distance (box_a box_b : List ℝ)
    (leniency_factor : ℤ := 2) : ℝ :=
  let diagonal := min (minkowski_distance (box_a.take 2) ((box_a.drop 2).take 2))
                      (minkowski_distance (box_b.take 2) ((box_b.drop 2).take 2))
  let center_distance := minkowski_distance box_a box_b
  if (⌊center_distance / diagonal⌋ : ℤ) ≤ leniency_factor then center_distance
  else 1

/-- The specification's reading of `centerDistance(a, b, leniencyFactor)`
(spec §4.1): Euclidean distance between the two boxes' center points,
returned when that distance divided by the smaller diagonal is at most the
leniency factor, else the sentinel `1.0`.  Stated only to be compared with
`localize_distance`, the function the source actually implements. -/
noncomputable def centerDistanceSpec (box_a box_b : List ℝ)
    (leniency_factor : ℤ) : ℝ :=
  let diagonal := min (minkowski_distance (box_a.take 2) ((box_a.drop 2).take 2))
                      (minkowski_distance (box_b.take 2) ((box_b.drop 2).take 2))
  let center_distance :=
    minkowski_distance (get_center_point box_a) (get_center_point box_b)
  if center_distance / diagonal ≤ (leniency_factor : ℝ) then center_distance
  else 1

/-- Embeds `MatchDetections.store_metric` (`matchdetections.py`, lines
401-449) as the value computed for one grid cell: `iou_2d(dt, gt)` for the
`"iou"` metric, `1 - localize_distance(dt, gt, leniency_factor)` for the
`"centerpoint"` metric, and a `ValueError` (`UnsupportedMetric`) for any
other metric name. -/
noncomputable def MatchDetections.store_metric (metric : String)
    (leniency_factor : ℤ) (gt dt : List ℝ) : Except MatchError ℝ :=
  if metric = "iou" then iou_2d dt gt
  else if metric = "centerpoint" then
    .ok (1 - localize_distance dt gt leniency_factor)
  else .error .unsupportedMetric

/-! ### Task wrapper (`processthread.py`) -/

/-- A task handed to `DataThread`: its target's return value together with
the time (if any) at which the target completes.  `completesAt = none`
models a target that never returns. -/
structure ThreadTask (β : Type) where
  result : β
  completesAt : Option ℕ

/-- Possible behaviours of a call to `DataThread.join`:
it returns a value (`completed`; `completed none` is the Python `None`
that `_return` still holds before the target finishes — the spec's
"not-yet-available indicator"), or the call never returns. -/
inductive JoinOutcome (β : Type) where
  | completed (r : Option β)
  | neverReturns
deriving DecidableEq

/-- Embeds `DataThread.join` (`processthread.py`, lines 33-35).  The body is
`Thread.join(self); return self._return`: the `timeout` parameter (default
`0.7`) is accepted but NOT passed to `Thread.join`, so the call waits for
the target unconditionally — it returns the target's result once the
target completes, and never returns for a target that never completes. -/
def DataThread.join {β : Type} (task : ThreadTask β) (timeout : ℚ := 7 / 10) :
    JoinOutcome β :=
  match task.completesAt with
  | some _ => .completed (some task.result)
  | none => .neverReturns

/-! ### Text categorizer (`categorizetext.py`)

The `enchant` dictionary is an external collaborator (spec §6); it enters
as the pair of functions `check` (`Dictionary.isValidWord`) and `suggest`
(`SpellingSource.suggest`).  The `categories` dict is modelled as an
insertion-ordered association list. -/

/-- Python `str.isdigit()`: nonempty and every character a digit. -/
def pyIsDigit (s : String) : Bool :=
  s.length > 0 && s.toList.all Char.isDigit

/-- Python `text.lower().replace(" ", "")`: every character lowercased,
then every space removed (modelled directly on the character list; Lean's
`String.replace` is not kernel-reducible). -/
def pyLowerNoSpace (s : String) : String :=
  ⟨(s.data.map Char.toLower).filter (fun c => c ≠ ' ')⟩

/-- Python `key in self.categories.keys()`. -/
def hasKey (cats : List (String × List ℕ)) (k : String) : Bool :=
  cats.any (fun kv => kv.1 == k)

/-- One iteration of the `for text in self.texts` loop of
`CategorizeText.categorize_by_longest_match` (`categorizetext.py`, lines
44-55).  A recognized word is registered as a new empty category when its
length exceeds 2, it is not already a key, and it is not all digits;
otherwise the top spelling suggestion, lowercased with spaces removed, is
registered when its length exceeds 2 and it is not already a key. -/
def longestMatchStep (check : String → Bool) (suggest : String → List String)
    (cats : List (String × List ℕ)) (text : String) :
    List (String × List ℕ) :=
  if check text then
    if text.length > 2 ∧ ¬hasKey cats text ∧ ¬pyIsDigit text then
      cats ++ [(text, [])]
    else cats
  else
    match suggest text with
    | [] => cats
    | o :: _ =>
      let category := pyLowerNoSpace o
      if category.length > 2 ∧ ¬hasKey cats category then
        cats ++ [(category, [])]
      else cats

/-- Embeds `CategorizeText.categorize_by_longest_match` (`categorizetext.py`,
lines 38-55): fold `longestMatchStep` over the detected texts starting
from the empty category dict. -/
def CategorizeText.categorize_by_longest_match (check : String → Bool)
    (suggest : String → List String) (texts : List String) :
    List (String × List ℕ) :=
  texts.foldl (longestMatchStep check suggest) []

/-! ### Package counts (`packagecount.py`, `processcount.py`)

`processcount.py` instantiates `PackageImage(key)`, a class that is not
defined anywhere under `src/`; the specification (§3, §4.5) names the
aggregated objects `PackageCount`, and `statistics/packagecount.py`
defines `PackageCount` with exactly the fields the aggregation loop
mutates (`_label = label`, `_count = 0`, `_boxes = []`), so the created
object is modelled after that constructor.  `β` is the type of one
ground-truth bounding box. -/

/-- `PackageCount` (`statistics/packagecount.py`, lines 13-26), restricted to
the fields touched by `process_text_counts`. -/
structure PackageCount (β : Type) where
  label : String
  count : ℕ
  boxes : List β
deriving DecidableEq

/-- The body of one match iteration of `ProcessCount.process_text_counts`
once a category `key` containing the match's prediction index was found:
if no collected package carries `key` yet (`key not in captured_keys`),
append a fresh one (constructed with count 0 and no boxes, then
incremented and given the box); otherwise increment the first collected
package whose label is `key` and append the box to it.  The Python code
keeps `captured_keys` as the parallel list of labels of
`collected_packages`, so "first with this label" is exactly
`captured_keys.index(key)`. -/
def addToCollected {β : Type} (key : String) (box : β) :
    List (PackageCount β) → List (PackageCount β)
  | [] => [⟨key, 1, [box]⟩]
  | pc :: rest =>
    if pc.label = key then ⟨pc.label, pc.count + 1, pc.boxes ++ [box]⟩ :: rest
    else pc :: addToCollected key box rest

/-- Embeds `ProcessCount.process_text_counts` (`processcount.py`, lines
251-269): for each match `(predictionIndex, groundTruthIndex)` in order,
find the first category whose member list contains the prediction index
(the inner `for`/`break`); if none exists the match contributes nothing;
otherwise create-or-update the package for that category's key, appending
`ground_truths[groundTruthIndex]`.  Indexing of `ground_truths` is total
here via a default (the Python code would raise `IndexError` out of
range; every caller passes in-range indices produced by the matcher). -/
def ProcessCount.process_text_counts {β : Type}
    (index_matches : List (ℕ × ℕ)) (categories : List (String × List ℕ))
    (ground_truths : List β) (dflt : β) : List (PackageCount β) :=
  index_matches.foldl
    (fun collected m =>
      match categories.find? (fun kv => decide (m.1 ∈ kv.2)) with
      | none => collected
      | some kv => addToCollected kv.1 (ground_truths.getD m.2 dflt) collected)
    []

/-- The count recorded for label `k` (0 when no package carries `k`). -/
def countOf {β : Type} (l : List (PackageCount β)) (k : String) : ℕ :=
  match l.find? (fun pc => decide (pc.label = k)) with
  | some pc => pc.count
  | none => 0

/-- The boxes recorded for label `k` (`[]` when no package carries `k`). -/
def boxesOf {β : Type} (l : List (PackageCount β)) (k : String) : List β :=
  match l.find? (fun pc => decide (pc.label = k)) with
  | some pc => pc.boxes
  | none => []

/-- The key of the first category whose member list contains prediction
index `i` — the category the aggregation loop selects for a match. -/
def firstKeyFor (categories : List (String × List ℕ)) (i : ℕ) :
    Option String :=
  (categories.find? (fun kv => decide (i ∈ kv.2))).map Prod.fst

/-! ### Detection matcher (`matchdetections.py`)

State of a `MatchDetections` object during `match()`: the similarity grid
(rows = ground truths, columns = predictions), the per-prediction matched
score list, the match list `[(dti, gti), ...]`, and the grouped unmatched
prediction lists.  The matcher only compares scores with each other and
with zero, so it is polymorphic over a linearly ordered type with a zero —
instantiated at `ℝ` (resp. `ℚ`) below. -/

/-- Mutable state of `MatchDetections` during `match()`
(`matchdetections.py`, lines 74-92). -/
structure MatchState (G P : ℕ) (α : Type) where
  iou_grid : Fin G → Fin P → α
  iou_list : Fin P → α
  index_matches : List (Fin P × Fin G)
  index_unmatched_dt_grouped : List (List (Fin P))

/-- `self.iou_grid[g][p] = v`. -/
def setCell {G P : ℕ} {α : Type} (grid : Fin G → Fin P → α) (g : Fin G)
    (p : Fin P) (v : α) : Fin G → Fin P → α :=
  fun g' p' => if g' = g ∧ p' = p then v else grid g' p'

/-- Overwriting row `g` of the grid (the `store_metric` inner loop fills
row `gti` cell by cell from the original boxes). -/
def setRow {G P : ℕ} {α : Type} (grid : Fin G → Fin P → α) (g : Fin G)
    (row : Fin P → α) : Fin G → Fin P → α :=
  fun g' => if g' = g then row else grid g'

/-- `np.argmax` over one grid row: index of the first occurrence of the
maximum (the fold keeps the earlier index on ties, as numpy does). -/
def argmaxRow {P : ℕ} {α : Type} [LinearOrder α] (row : Fin P → α)
    (hP : 0 < P) : Fin P :=
  (List.finRange P).foldl (fun best i => if row best < row i then i else best)
    ⟨0, hP⟩

/-- Embeds `MatchDetections.compare_matches` (`matchdetections.py`, lines
344-399), with explicit fuel for the recursion (the Python recursion
zeroes one positive grid cell before every recursive call, so its depth is
bounded by the number of positive cells; `match` passes fuel `G*P + 1`,
which therefore never runs out on a run the Python code completes).

`twice_matched` is the sublist of matches whose prediction index is `dti`.
With exactly one such match `(dti, pre_gti)`: when the new `iou` beats the
recorded `iou_list[dti]`, the old match is replaced by `(dti, gti)`, cell
`(pre_gti, dti)` is zeroed and `pre_gti` is rematched to its next-best
positive candidate; otherwise cell `(gti, dti)` is zeroed and `gti` itself
retries its next-best positive candidate.  With no such match, `(dti,
gti)` is recorded if `iou > 0`.  Two or more raise `IndexError`
(`duplicateMatch`). -/
def MatchDetections.compare_matches {G P : ℕ} {α : Type} [LinearOrder α]
    [Zero α] (hP : 0 < P) :
    ℕ → MatchState G P α → Fin P → Fin G → α →
    Except MatchError (MatchState G P α)
  | 0, _, _, _, _ => .error .fuelExhausted
  | fuel + 1, s, dti, gti, iou =>
    match s.index_matches.filter (fun m => decide (m.1 = dti)) with
    | [(dti', pre_gti)] =>
      if s.iou_list dti' < iou then
        let s1 : MatchState G P α :=
          { s with
            index_matches :=
              (s.index_matches.erase (dti', pre_gti)) ++ [(dti', gti)]
            iou_list := Function.update s.iou_list dti' iou
            iou_grid := setCell s.iou_grid pre_gti dti' 0 }
        let dti2 := argmaxRow (s1.iou_grid pre_gti) hP
        let iou2 := s1.iou_grid pre_gti dti2
        if 0 < iou2 then compare_matches hP fuel s1 dti2 pre_gti iou2
        else .ok s1
      else
        let s1 : MatchState G P α :=
          { s with iou_grid := setCell s.iou_grid gti dti 0 }
        let dti2 := argmaxRow (s1.iou_grid gti) hP
        let iou2 := s1.iou_grid gti dti2
        if 0 < iou2 then compare_matches hP fuel s1 dti2 gti iou2
        else .ok s1
    | [] =>
      if 0 < iou then
        .ok { s with
              iou_list := Function.update s.iou_list dti iou
              index_matches := s.index_matches ++ [(dti, gti)] }
      else .ok s
    | _ :: _ :: _ => .error .duplicateMatch

/-- The zero-initialized state built by `MatchDetections.__init__`
(`matchdetections.py`, lines 74-92). -/
def initState (G P : ℕ) (α : Type) [Zero α] : MatchState G P α :=
  ⟨fun _ _ => 0, fun _ => 0, [], []⟩

/-- Python `list.remove`: removes the first occurrence, raises `ValueError`
when the element is absent. -/
def removeMatched {γ : Type} [DecidableEq γ] (l : List γ) (x : γ) :
    Except MatchError (List γ) :=
  if x ∈ l then .ok (l.erase x) else .error .valueError

/-- One iteration of the `for gti, gt in enumerate(self.ground_truths)`
loop of `match()` (`matchdetections.py`, lines 328-337): fill row `gti` of
the grid from the similarity function, optionally record the grouped
nonzero prediction indices of that row, then resolve the best candidate
(`np.argmax` of the row, with `max(row)` its value). -/
def matchStep {G P : ℕ} {α : Type} [LinearOrder α] [Zero α]
    (rowOf : Fin G → Fin P → α) (group : Bool) (hP : 0 < P)
    (s : MatchState G P α) (g : Fin G) :
    Except MatchError (MatchState G P α) :=
  let s1 : MatchState G P α := { s with iou_grid := setRow s.iou_grid g (rowOf g) }
  let s2 : MatchState G P α :=
    if group then
      { s1 with
        index_unmatched_dt_grouped :=
          s1.index_unmatched_dt_grouped ++
            [(List.finRange P).filter (fun p => decide (s1.iou_grid g p ≠ 0))] }
    else s1
  let dti := argmaxRow (s2.iou_grid g) hP
  MatchDetections.compare_matches hP (G * P + 1) s2 dti g (s2.iou_grid g dti)

/-- Result of a completed `match()` call: the final object state together
with the derived unmatched index lists. -/
structure MatchResult (G P : ℕ) (α : Type) where
  state : MatchState G P α
  index_unmatched_dt : List (Fin P)
  index_unmatched_gt : List (Fin G)

/-- Embeds `MatchDetections.match` (`matchdetections.py`, lines 310-342)
over an arbitrary similarity function `rowOf` (the value `store_metric`
writes into cell `(g, p)`; it depends only on the original boxes, so the
interleaving of grid-filling with matching in the source is equivalent to
overwriting each row at its turn).  If either side is empty the method
returns immediately with no matches and the unmatched lists still holding
every index.  Afterwards each match's prediction and ground-truth index is
removed (`list.remove`) from the unmatched lists. -/
def MatchDetections.matchFn {G P : ℕ} {α : Type} [LinearOrder α] [Zero α]
    (rowOf : Fin G → Fin P → α) (group : Bool) :
    Except MatchError (MatchResult G P α) :=
  if hGP : G = 0 ∨ P = 0 then
    .ok ⟨initState G P α, List.finRange P, List.finRange G⟩
  else
    have hP : 0 < P := Nat.pos_of_ne_zero fun h => hGP (Or.inr h)
    do
      let final ← (List.finRange G).foldlM (matchStep rowOf group hP)
        (initState G P α)
      let udt ← final.index_matches.foldlM
        (fun l m => removeMatched l m.1) (List.finRange P)
      let ugt ← final.index_matches.foldlM
        (fun l m => removeMatched l m.2) (List.finRange G)
      return ⟨final, udt, ugt⟩

/-- The grid rows as computed by the `store_metric` loop: row `g`, column
`p` holds `metricFn gt dt` for ground truth `g` and prediction `p`;
evaluation is row-major, and the first raised error aborts `match()`. -/
def MatchDetections.buildRows {α : Type}
    (metricFn : List α → List α → Except MatchError α)
    (gts preds : List (List α)) : Except MatchError (List (List α)) :=
  gts.mapM (fun gt => preds.mapM (fun dt => metricFn gt dt))

/-- `MatchDetections.match` composed with a similarity function over the
ground-truth and prediction box lists. -/
def MatchDetections.matchWith {α : Type} [LinearOrderedField α]
    (metricFn : List α → List α → Except MatchError α)
    (gts preds : List (List α)) (group : Bool) :
    Except MatchError (MatchResult gts.length preds.length α) := do
  let rows ← MatchDetections.buildRows metricFn gts preds
  MatchDetections.matchFn
    (fun g p => (rows.getD (g : ℕ) []).getD (p : ℕ) 0) group

/-- The full `MatchDetections(gts, preds, leniency_factor, metric).match()`
pipeline over real-valued boxes: grid cells computed by `store_metric`
with the configured metric and leniency factor. -/
noncomputable def MatchDetections.matchRun (metric : String)
    (leniency_factor : ℤ) (gts preds : List (List ℝ)) (group : Bool) :
    Except MatchError (MatchResult gts.length preds.length ℝ) :=
  MatchDetections.matchWith
    (MatchDetections.store_metric metric leniency_factor) gts preds group

/-- The matched prediction indices, in match order. -/
def dtis {G P : ℕ} {α : Type} (s : MatchState G P α) : List (Fin P) :=
  s.index_matches.map Prod.fst

/-- The matched ground-truth indices, in match order. -/
def gtis {G P : ℕ} {α : Type} (s : MatchState G P α) : List (Fin G) :=
  s.index_matches.map Prod.snd

/-- The matcher's 1:1 invariant: no prediction index and no ground-truth
index occurs in two match pairs. -/
def MatchInv {G P : ℕ} {α : Type} (s : MatchState G P α) : Prop :=
  (dtis s).Nodup ∧ (gtis s).Nodup

/-- The result `match()` returns on empty inputs: no matches, every index
unmatched. -/
def emptyMatchResult : MatchResult 0 0 ℝ :=
  ⟨initState 0 0 ℝ, List.finRange 0, List.finRange 0⟩

/-- The result `match()` returns for one ground truth and no predictions:
the early-return branch leaves no matches and the single ground truth
unmatched. -/
def soloGtResult : MatchResult 1 0 ℝ :=
  ⟨initState 1 0 ℝ, List.finRange 0, List.finRange 1⟩

/-- Invariant of `match()`'s ground-truth loop after processing the ground
truths in `done`: the 1:1 invariant holds, only processed ground truths
are matched, each processed ground truth is matched or has exhausted its
row, and any processed row cell differing from the similarity function's
value belongs to a matched prediction. -/
def MatchLoopInv {G P : ℕ} {α : Type} [LinearOrder α] [Zero α]
    (rowOf : Fin G → Fin P → α) (s : MatchState G P α)
    (done : List (Fin G)) : Prop :=
  MatchInv s ∧
  (∀ g, g ∈ gtis s → g ∈ done) ∧
  (∀ g, g ∈ done → g ∈ gtis s ∨ ∀ p, s.iou_grid g p ≤ 0) ∧
  (∀ g p, g ∈ done → s.iou_grid g p ≠ rowOf g p → p ∈ dtis s)

/-! ## Theorems -/

/-! ### Task wrapper: claim C9 -/

/-- Claim C9, counterexample: for a task whose target never returns, the
`join` call as implemented never returns either (it is `neverReturns`, not
the `completed none` "not-yet-available indicator" the claim requires
after the timeout, nor any completed value), for the default timeout
`0.7`. -/
theorem join_timeout_counterexample :
    DataThread.join (⟨0, none⟩ : ThreadTask ℕ) (7 / 10) =
      JoinOutcome.neverReturns ∧
    (JoinOutcome.neverReturns : JoinOutcome ℕ) ≠
      JoinOutcome.completed none ∧
    (JoinOutcome.neverReturns : JoinOutcome ℕ) ≠
      JoinOutcome.completed (some 0) :=
  ⟨rfl, by decide, by decide⟩

/-- Claim C9, amended: `join(timeout)` returns the task's result value once
the task completes, but the timeout argument is accepted and discarded
(`Thread.join(self)` is called without it), so the outcome is independent
of the timeout and a task that never completes blocks `join` forever — a
hung detector task is not bounded by the configured join timeout. -/
theorem join_timeout_amended :
    ∀ (β : Type) (task : ThreadTask β) (t₁ t₂ : ℚ),
      DataThread.join task t₁ = DataThread.join task t₂ ∧
      (∀ n, task.completesAt = some n →
        DataThread.join task t₁ = .completed (some task.result)) ∧
      (task.completesAt = none →
        DataThread.join task t₁ = .neverReturns) := by
  intro β task t₁ t₂
  refine ⟨rfl, ?_, ?_⟩
  · intro n hn
    simp [DataThread.join, hn]
  · intro hn
    simp [DataThread.join, hn]

/-- Witness for C9's amended theorem at a concrete completed task. -/
theorem join_timeout_amended_witness :
    DataThread.join (⟨5, some 3⟩ : ThreadTask ℕ) 1 = .completed (some 5) :=
  (join_timeout_amended ℕ ⟨5, some 3⟩ 1 1).2.1 3 rfl

/-! ### Text categorizer: claim C6 -/

theorem mem_longestMatchStep {check : String → Bool}
    {suggest : String → List String} {cats : List (String × List ℕ)}
    {text : String} {kv : String × List ℕ} (h : kv ∈ cats) :
    kv ∈ longestMatchStep check suggest cats text := by
  unfold longestMatchStep
  split
  · split
    · exact List.mem_append_left _ h
    · exact h
  · split
    · exact h
    · dsimp only
      split
      · exact List.mem_append_left _ h
      · exact h

theorem longestMatchStep_values {check : String → Bool}
    {suggest : String → List String} {cats : List (String × List ℕ)}
    {text : String} (hv : ∀ kv ∈ cats, kv.2 = ([] : List ℕ)) :
    ∀ kv ∈ longestMatchStep check suggest cats text, kv.2 = ([] : List ℕ) := by
  intro kv hkv
  unfold longestMatchStep at hkv
  have append_case : ∀ k : String, kv ∈ cats ++ [(k, ([] : List ℕ))] →
      kv.2 = ([] : List ℕ) := by
    intro k hk
    rcases List.mem_append.1 hk with h | h
    · exact hv kv h
    · simp only [List.mem_singleton] at h
      simp [h]
  revert hkv
  split
  · split
    · exact append_case _
    · exact fun h => hv kv h
  · split
    · exact fun h => hv kv h
    · dsimp only
      split
      · exact append_case _
      · exact fun h => hv kv h

theorem hasKey_true_mem {cats : List (String × List ℕ)} {k : String}
    (hv : ∀ kv ∈ cats, kv.2 = ([] : List ℕ)) (h : hasKey cats k = true) :
    (k, ([] : List ℕ)) ∈ cats := by
  unfold hasKey at h
  rcases List.any_eq_true.1 h with ⟨kv, hkv, hk⟩
  have h1 : kv.1 = k := by simpa using hk
  have h2 : kv.2 = ([] : List ℕ) := hv kv hkv
  have : kv = (k, ([] : List ℕ)) := by
    cases kv
    simp_all
  exact this ▸ hkv

theorem mem_foldl_longestMatch {check : String → Bool}
    {suggest : String → List String} {kv : String × List ℕ} :
    ∀ (texts : List String) (cats : List (String × List ℕ)), kv ∈ cats →
      kv ∈ texts.foldl (longestMatchStep check suggest) cats := by
  intro texts
  induction texts with
  | nil => exact fun cats h => h
  | cons t ts ih =>
    intro cats h
    exact ih _ (mem_longestMatchStep h)

theorem foldl_longestMatch_values {check : String → Bool}
    {suggest : String → List String} :
    ∀ (texts : List String) (cats : List (String × List ℕ)),
      (∀ kv ∈ cats, kv.2 = ([] : List ℕ)) →
      ∀ kv ∈ texts.foldl (longestMatchStep check suggest) cats,
        kv.2 = ([] : List ℕ) := by
  intro texts
  induction texts with
  | nil => exact fun cats h => h
  | cons t ts ih =>
    intro cats h
    exact ih _ (longestMatchStep_values h)

/-- The step taken exactly at `text`'s own iteration registers (or finds)
the key the recognized-word branch demands. -/
theorem longestMatchStep_registers_checked {check : String → Bool}
    {suggest : String → List String} {cats : List (String × List ℕ)}
    {text : String} (hv : ∀ kv ∈ cats, kv.2 = ([] : List ℕ))
    (hc : check text = true) (hlen : text.length > 2)
    (hdig : pyIsDigit text = false) :
    (text, ([] : List ℕ)) ∈ longestMatchStep check suggest cats text := by
  unfold longestMatchStep
  rw [hc]
  simp only [if_true]
  by_cases hk : hasKey cats text
  · have : (text, ([] : List ℕ)) ∈ cats := hasKey_true_mem hv hk
    split
    · exact List.mem_append_left _ this
    · exact this
  · rw [if_pos ⟨hlen, by simp [hk], by simp [hdig]⟩]
    exact List.mem_append_right _ (by simp)

/-- The step taken at `text`'s own iteration registers (or finds) the key
the suggestion branch demands. -/
theorem longestMatchStep_registers_suggested {check : String → Bool}
    {suggest : String → List String} {cats : List (String × List ℕ)}
    {text o : String} {rest : List String}
    (hv : ∀ kv ∈ cats, kv.2 = ([] : List ℕ)) (hc : check text = false)
    (hs : suggest text = o :: rest)
    (hlen : (pyLowerNoSpace o).length > 2) :
    (pyLowerNoSpace o, ([] : List ℕ)) ∈
      longestMatchStep check suggest cats text := by
  unfold longestMatchStep
  rw [hc]
  simp only [Bool.false_eq_true, if_false, hs]
  by_cases hk : hasKey cats (pyLowerNoSpace o)
  · have : (pyLowerNoSpace o, ([] : List ℕ)) ∈ cats := hasKey_true_mem hv hk
    split
    · exact List.mem_append_left _ this
    · exact this
  · rw [if_pos ⟨hlen, by simp [hk]⟩]
    exact List.mem_append_right _ (by simp)

/-- Claim C6, counterexample: with a dictionary that recognizes `"123"`
(the spelling backend is an external collaborator, so any behaviour of
`check` is a legal input), the text `"123"` is recognized, has length 3 >
2 and is not already a category key, yet no category is registered — the
code additionally requires the text not to consist solely of digits
(`not text.isdigit()`), a condition the claim omits. -/
theorem categorize_longest_counterexample :
    ("123" : String).length > 2 ∧
    CategorizeText.categorize_by_longest_match (fun _ => true) (fun _ => [])
      ["123"] = [] := by
  constructor
  · decide
  · rfl

/-- Claim C6, amended: in longest-match categorization, every input text
that the dictionary recognizes, has length greater than 2, and does not
consist solely of digit characters ends with a category keyed by that text
with an empty member list (registered at its iteration unless the key
already exists — in which case the key is already present with an empty
member list); and every unrecognized text whose top spelling suggestion,
lowercased with spaces removed, has length greater than 2 likewise ends
with an empty category keyed by that suggestion. -/
theorem categorize_longest_amended :
    ∀ (check : String → Bool) (suggest : String → List String)
      (texts : List String) (text : String), text ∈ texts →
      ((check text = true → text.length > 2 → pyIsDigit text = false →
        (text, ([] : List ℕ)) ∈
          CategorizeText.categorize_by_longest_match check suggest texts) ∧
       (check text = false → ∀ o rest, suggest text = o :: rest →
        (pyLowerNoSpace o).length > 2 →
        (pyLowerNoSpace o, ([] : List ℕ)) ∈
          CategorizeText.categorize_by_longest_match check suggest texts)) := by
  intro check suggest texts text htext
  unfold CategorizeText.categorize_by_longest_match
  have main : ∀ (ts : List String) (cats : List (String × List ℕ)),
      (∀ kv ∈ cats, kv.2 = ([] : List ℕ)) → text ∈ ts →
      ((check text = true → text.length > 2 → pyIsDigit text = false →
        (text, ([] : List ℕ)) ∈
          ts.foldl (longestMatchStep check suggest) cats) ∧
       (check text = false → ∀ o rest, suggest text = o :: rest →
        (pyLowerNoSpace o).length > 2 →
        (pyLowerNoSpace o, ([] : List ℕ)) ∈
          ts.foldl (longestMatchStep check suggest) cats)) := by
    intro ts
    induction ts with
    | nil => intro cats _ h; exact absurd h (List.not_mem_nil _)
    | cons t ts ih =>
      intro cats hv hmem
      rcases List.mem_cons.1 hmem with rfl | hmem
      · constructor
        · intro hc hlen hdig
          exact mem_foldl_longestMatch ts _
            (longestMatchStep_registers_checked hv hc hlen hdig)
        · intro hc o rest hs hlen
          exact mem_foldl_longestMatch ts _
            (longestMatchStep_registers_suggested hv hc hs hlen)
      · exact ih _ (longestMatchStep_values hv) hmem
  exact main texts [] (by simp) htext

/-- Witness for C6's amended theorem: a recognized text and an unrecognized
text whose suggestion is normalized and registered. -/
theorem categorize_longest_amended_witness :
    ("abc", ([] : List ℕ)) ∈
      CategorizeText.categorize_by_longest_match (fun s => s == "abc")
        (fun _ => ["Wid get"]) ["abc", "xx"] ∧
    ("widget", ([] : List ℕ)) ∈
      CategorizeText.categorize_by_longest_match (fun s => s == "abc")
        (fun _ => ["Wid get"]) ["abc", "xx"] := by
  constructor
  · exact (categorize_longest_amended (fun s => s == "abc")
      (fun _ => ["Wid get"]) ["abc", "xx"] "abc" (by simp)).1 (by decide)
      (by decide) (by decide)
  · have h := (categorize_longest_amended (fun s => s == "abc")
      (fun _ => ["Wid get"]) ["abc", "xx"] "xx" (by simp)).2 (by decide)
      "Wid get" [] rfl (by decide)
    simpa using h

/-! ### Geometry: claims C8, C7, C5 -/

theorem list_eq_four {γ : Type} {l : List γ} (h : l.length = 4) :
    ∃ a b c d, l = [a, b, c, d] := by
  rcases l with _ | ⟨a, _ | ⟨b, _ | ⟨c, _ | ⟨d, _ | rest⟩⟩⟩⟩
  · simp at h
  · simp at h
  · simp at h
  · simp at h
  · exact ⟨a, b, c, d, rfl⟩
  · simp only [List.length_cons] at h
    omega

theorem iou_2d_ne_invalid_of_len4 {α : Type} [LinearOrderedField α]
    (a1 a2 a3 a4 b1 b2 b3 b4 eps : α) :
    ∀ e, iou_2d [a1, a2, a3, a4] [b1, b2, b3, b4] eps = .error e →
      e = .invariantViolation := by
  intro e h
  simp only [iou_2d] at h
  split_ifs at h with h1 h2
  injection h with h'
  exact h'.symm

theorem iou_2d_invalid_of_not_len4 {α : Type} [LinearOrderedField α]
    (a b : List α) (eps : α) (h : a.length ≠ 4 ∨ b.length ≠ 4) :
    iou_2d a b eps = .error .invalidInput := by
  rcases a with _ | ⟨x1, _ | ⟨x2, _ | ⟨x3, _ | ⟨x4, _ | as⟩⟩⟩⟩ <;>
    rcases b with _ | ⟨y1, _ | ⟨y2, _ | ⟨y3, _ | ⟨y4, _ | bs⟩⟩⟩⟩ <;>
    first
      | rfl
      | simp at h

theorem iou_2d_error_cases {α : Type} [LinearOrderedField α]
    (a b : List α) (eps : α) (e : MatchError)
    (h : iou_2d a b eps = .error e) :
    e = .invalidInput ∨ e = .invariantViolation := by
  by_cases h4 : a.length = 4 ∧ b.length = 4
  · obtain ⟨a1, a2, a3, a4, rfl⟩ := list_eq_four h4.1
    obtain ⟨b1, b2, b3, b4, rfl⟩ := list_eq_four h4.2
    exact Or.inr (iou_2d_ne_invalid_of_len4 a1 a2 a3 a4 b1 b2 b3 b4 eps e h)
  · rw [not_and_or] at h4
    rw [iou_2d_invalid_of_not_len4 a b eps h4] at h
    injection h with h'
    exact Or.inl h'.symm

/-- Claim C7: `iou` fails with `InvalidInput` exactly when a box does not
have exactly 4 coordinates; on well-formed boxes it fails with
`InvariantViolation` exactly when the computed ratio falls outside
`[0, 1+eps]` (the `inter_area ≠ 0` conjunct records that the ratio is only
computed past the zero-intersection early return, which yields `0`, inside
the range); and `store_metric` fails with `UnsupportedMetric` exactly when
the metric name is neither `"iou"` nor `"centerpoint"`. -/
theorem metric_errors_iff :
    (∀ (α : Type) [LinearOrderedField α] (a b : List α) (eps : α),
      iou_2d a b eps = .error .invalidInput ↔
        a.length ≠ 4 ∨ b.length ≠ 4) ∧
    (∀ (α : Type) [LinearOrderedField α] (a1 a2 a3 a4 b1 b2 b3 b4 eps : α),
      iou_2d [a1, a2, a3, a4] [b1, b2, b3, b4] eps =
          .error .invariantViolation ↔
        (let inter_area :=
          max (min a3 b3 - max a1 b1) 0 * max (min a4 b4 - max a2 b2) 0
         let ratio :=
          inter_area /
            (|(a3 - a1) * (a4 - a2)| + |(b3 - b1) * (b4 - b2)| - inter_area)
         inter_area ≠ 0 ∧ (1 + eps < ratio ∨ ratio < 0))) ∧
    (∀ (metric : String) (L : ℤ) (gt dt : List ℝ),
      MatchDetections.store_metric metric L gt dt =
          .error .unsupportedMetric ↔
        metric ≠ "iou" ∧ metric ≠ "centerpoint") := by
  refine ⟨?_, ?_, ?_⟩
  · intro α _ a b eps
    constructor
    · intro h
      by_contra hlen
      push_neg at hlen
      obtain ⟨a1, a2, a3, a4, rfl⟩ := list_eq_four hlen.1
      obtain ⟨b1, b2, b3, b4, rfl⟩ := list_eq_four hlen.2
      have := iou_2d_ne_invalid_of_len4 a1 a2 a3 a4 b1 b2 b3 b4 eps _ h
      simp at this
    · exact iou_2d_invalid_of_not_len4 a b eps
  · intro α _ a1 a2 a3 a4 b1 b2 b3 b4 eps
    simp only [iou_2d]
    split_ifs with h1 h2
    · simp [h1]
    · simp only [Except.error.injEq, true_iff]
      exact ⟨h1, h2⟩
    · constructor
      · intro h
        exact absurd h (by simp)
      · intro h
        exact absurd h.2 h2
  · intro metric L gt dt
    unfold MatchDetections.store_metric
    split_ifs with h1 h2
    · subst h1
      simp only [ne_eq, not_true_eq_false, false_and, iff_false]
      intro h
      rcases iou_2d_error_cases dt gt _ _ h with h' | h' <;> simp at h'
    · simp [h1, h2]
    · simp [h1, h2]

/-- Claim C8: `iou(a, a) = 1` for every proper box (`xmin < xmax`,
`ymin < ymax`); `iou(a, b) = 0` for boxes that do not overlap (one
separating axis); and a degenerate box (zero width or zero height) yields
IoU `0` against every well-formed box rather than an error. -/
theorem iou_properties {α : Type} [LinearOrderedField α] :
    (∀ x1 y1 x2 y2 : α, x1 < x2 → y1 < y2 →
      iou_2d [x1, y1, x2, y2] [x1, y1, x2, y2] = .ok 1) ∧
    (∀ a1 b1 a2 b2 c1 d1 c2 d2 : α,
      min a2 c2 ≤ max a1 c1 ∨ min b2 d2 ≤ max b1 d1 →
      iou_2d [a1, b1, a2, b2] [c1, d1, c2, d2] = .ok 0) ∧
    (∀ x1 y1 x2 y2 : α, x1 = x2 ∨ y1 = y2 →
      ∀ b1 b2 b3 b4 : α, iou_2d [x1, y1, x2, y2] [b1, b2, b3, b4] = .ok 0) := by
  refine ⟨?_, ?_, ?_⟩
  · intro x1 y1 x2 y2 hx hy
    have hw : (0 : α) < x2 - x1 := sub_pos.2 hx
    have hh : (0 : α) < y2 - y1 := sub_pos.2 hy
    have hinter : (0 : α) < (x2 - x1) * (y2 - y1) := mul_pos hw hh
    have heps : (0 : α) < 1 / 10 ^ 10 := by positivity
    simp only [iou_2d, max_self, min_self]
    rw [max_eq_left hw.le, max_eq_left hh.le, if_neg hinter.ne',
      abs_of_pos hinter, add_sub_cancel_right, div_self hinter.ne']
    rw [if_neg]
    push_neg
    constructor
    · linarith
    · norm_num
  · intro a1 b1 a2 b2 c1 d1 c2 d2 h
    simp only [iou_2d]
    rcases h with h | h
    · rw [max_eq_right (sub_nonpos.2 h), zero_mul, if_pos rfl]
    · rw [max_eq_right (sub_nonpos.2 h), mul_zero, if_pos rfl]
  · intro x1 y1 x2 y2 h b1 b2 b3 b4
    simp only [iou_2d]
    rcases h with h | h
    · have : min x2 b3 - max x1 b1 ≤ 0 := by
        have h1 : min x2 b3 ≤ x2 := min_le_left _ _
        have h2 : x1 ≤ max x1 b1 := le_max_left _ _
        have := h ▸ h1
        linarith
      rw [max_eq_right this, zero_mul, if_pos rfl]
    · have : min y2 b4 - max y1 b2 ≤ 0 := by
        have h1 : min y2 b4 ≤ y2 := min_le_left _ _
        have h2 : y1 ≤ max y1 b2 := le_max_left _ _
        have := h ▸ h1
        linarith
      rw [max_eq_right this, mul_zero, if_pos rfl]

/-- Witness for C8 at concrete rational boxes. -/
theorem iou_properties_witness :
    iou_2d (α := ℚ) [0, 0, 2, 2] [0, 0, 2, 2] = .ok 1 ∧
    iou_2d (α := ℚ) [0, 0, 1, 1] [5, 5, 6, 6] = .ok 0 ∧
    iou_2d (α := ℚ) [0, 0, 0, 3] [0, 0, 2, 2] = .ok 0 := by
  refine ⟨?_, ?_, ?_⟩
  · exact (iou_properties (α := ℚ)).1 0 0 2 2 (by norm_num) (by norm_num)
  · exact (iou_properties (α := ℚ)).2.1 0 0 1 1 5 5 6 6 (by norm_num)
  · exact (iou_properties (α := ℚ)).2.2 0 0 0 3 (Or.inl rfl) 0 0 2 2

theorem minkowski_two (a b : List ℝ) :
    minkowski_distance a b 2 =
      Real.sqrt ((List.zipWith (fun x y => (x - y) ^ 2) a b).sum) := by
  unfold minkowski_distance
  simp only [sq_abs, Nat.cast_ofNat]
  exact (Real.sqrt_eq_rpow _).symm

/-- Closed form of `localize_distance` on 4-coordinate boxes: the distance
compared against the leniency guard is the Euclidean distance between the
two boxes viewed as 4-component vectors, and the guard floors the ratio. -/
theorem localize_distance_eval (ax1 ay1 ax2 ay2 bx1 by1 bx2 by2 : ℝ)
    (L : ℤ) :
    localize_distance [ax1, ay1, ax2, ay2] [bx1, by1, bx2, by2] L =
      (let d := Real.sqrt ((ax1 - bx1) ^ 2 + (ay1 - by1) ^ 2 +
          (ax2 - bx2) ^ 2 + (ay2 - by2) ^ 2)
       let diag := min (Real.sqrt ((ax1 - ax2) ^ 2 + (ay1 - ay2) ^ 2))
          (Real.sqrt ((bx1 - bx2) ^ 2 + (by1 - by2) ^ 2))
       if (⌊d / diag⌋ : ℤ) ≤ L then d else 1) := by
  unfold localize_distance
  simp only [List.take, List.drop, minkowski_two, List.zipWith, List.sum_cons,
    List.sum_nil, add_zero]
  ring_nf

/-- Claim C5, counterexample.  First input (`a = [0,0,3,4]`, `b` its
translate by `(3,4)`, leniency 2): the spec-side `centerDistance` returns
the center-point distance `5` (the guard `5/5 ≤ 2` holds), but the code
returns `√50`, the distance between the 4-component corner vectors.
Second input (`a = [0,0,3,4]`, `b = [6,0,9,4]`, leniency 1): the
center-point ratio is `6/5 > 1` so the claim demands the sentinel `1.0`,
but the code's floored ratio `⌊√72/5⌋ = 1` passes the guard and the raw
distance `√72 ≠ 1` is returned. -/
theorem localize_distance_counterexample :
    centerDistanceSpec [0, 0, 3, 4] [3, 4, 6, 8] 2 = 5 ∧
    localize_distance [0, 0, 3, 4] [3, 4, 6, 8] 2 = Real.sqrt 50 ∧
    Real.sqrt 50 ≠ 5 ∧
    centerDistanceSpec [0, 0, 3, 4] [6, 0, 9, 4] 1 = 1 ∧
    localize_distance [0, 0, 3, 4] [6, 0, 9, 4] 1 = Real.sqrt 72 ∧
    Real.sqrt 72 ≠ 1 := by
  have h25 : Real.sqrt 25 = 5 := by
    rw [show (25 : ℝ) = 5 ^ 2 by norm_num, Real.sqrt_sq (by norm_num : (0:ℝ) ≤ 5)]
  have h36 : Real.sqrt 36 = 6 := by
    rw [show (36 : ℝ) = 6 ^ 2 by norm_num, Real.sqrt_sq (by norm_num : (0:ℝ) ≤ 6)]
  have h50lt : Real.sqrt 50 < 15 := by
    have := Real.sqrt_lt_sqrt (by norm_num : (0:ℝ) ≤ 50) (by norm_num : (50:ℝ) < 225)
    calc Real.sqrt 50 < Real.sqrt 225 := this
    _ = 15 := by
      rw [show (225 : ℝ) = 15 ^ 2 by norm_num,
        Real.sqrt_sq (by norm_num : (0:ℝ) ≤ 15)]
  have h50gt : (5 : ℝ) < Real.sqrt 50 := by
    have := Real.sqrt_lt_sqrt (by norm_num : (0:ℝ) ≤ 25) (by norm_num : (25:ℝ) < 50)
    rwa [h25] at this
  have h72lt : Real.sqrt 72 < 10 := by
    have := Real.sqrt_lt_sqrt (by norm_num : (0:ℝ) ≤ 72) (by norm_num : (72:ℝ) < 100)
    calc Real.sqrt 72 < Real.sqrt 100 := this
    _ = 10 := by
      rw [show (100 : ℝ) = 10 ^ 2 by norm_num,
        Real.sqrt_sq (by norm_num : (0:ℝ) ≤ 10)]
  have h72gt : (1 : ℝ) < Real.sqrt 72 := by
    have := Real.sqrt_lt_sqrt (by norm_num : (0:ℝ) ≤ 1) (by norm_num : (1:ℝ) < 72)
    rwa [Real.sqrt_one] at this
  refine ⟨?_, ?_, ?_, ?_, ?_, ?_⟩
  · unfold centerDistanceSpec
    simp only [get_center_point, List.getD, List.take, List.drop,
      minkowski_two, List.zipWith, List.sum_cons, List.sum_nil, add_zero]
    norm_num
    exact h25
  · rw [localize_distance_eval]
    norm_num
    intro hcon
    exfalso
    rw [h25] at hcon
    have hlt : (⌊Real.sqrt 50 / 5⌋ : ℤ) < 3 :=
      Int.floor_lt.2 (by rw [div_lt_iff₀ (by norm_num : (0:ℝ) < 5)]; push_cast; linarith)
    omega
  · exact h50gt.ne'
  · unfold centerDistanceSpec
    simp only [get_center_point, List.getD, List.take, List.drop,
      minkowski_two, List.zipWith, List.sum_cons, List.sum_nil, add_zero]
    norm_num
    rw [h36, h25]
    norm_num
  · rw [localize_distance_eval]
    norm_num
    intro hcon
    exfalso
    rw [h25] at hcon
    have hlt : (⌊Real.sqrt 72 / 5⌋ : ℤ) < 2 :=
      Int.floor_lt.2 (by rw [div_lt_iff₀ (by norm_num : (0:ℝ) < 5)]; push_cast; linarith)
    omega
  · exact h72gt.ne'

/-- Claim C5, amended: for every pair of 4-coordinate boxes and every
leniency factor `L`, `localize_distance` returns the Euclidean distance
between the boxes' 4-component corner vectors `(xmin, ymin, xmax, ymax)` —
not between their center points — whenever the floor of that distance
divided by the smaller of the two box diagonals is at most `L`, and
returns exactly `1.0` otherwise. -/
theorem localize_distance_amended :
    ∀ (ax1 ay1 ax2 ay2 bx1 by1 bx2 by2 : ℝ) (L : ℤ),
      localize_distance [ax1, ay1, ax2, ay2] [bx1, by1, bx2, by2] L =
        (let d := Real.sqrt ((ax1 - bx1) ^ 2 + (ay1 - by1) ^ 2 +
            (ax2 - bx2) ^ 2 + (ay2 - by2) ^ 2)
         let diag := min (Real.sqrt ((ax1 - ax2) ^ 2 + (ay1 - ay2) ^ 2))
            (Real.sqrt ((bx1 - bx2) ^ 2 + (by1 - by2) ^ 2))
         if (⌊d / diag⌋ : ℤ) ≤ L then d else 1) :=
  fun ax1 ay1 ax2 ay2 bx1 by1 bx2 by2 L =>
    localize_distance_eval ax1 ay1 ax2 ay2 bx1 by1 bx2 by2 L

/-! ### Aggregation: claims C4, C10 -/

theorem addToCollected_mem {β : Type} (key : String) (box : β)
    (l : List (PackageCount β)) :
    ∀ pc ∈ addToCollected key box l,
      pc ∈ l ∨ pc = ⟨key, 1, [box]⟩ ∨
        ∃ pc' ∈ l, pc = ⟨pc'.label, pc'.count + 1, pc'.boxes ++ [box]⟩ := by
  induction l with
  | nil =>
    intro pc hpc
    simp only [addToCollected, List.mem_singleton] at hpc
    exact Or.inr (Or.inl hpc)
  | cons hd tl ih =>
    intro pc hpc
    by_cases hl : hd.label = key
    · simp only [addToCollected, if_pos hl, List.mem_cons] at hpc
      rcases hpc with rfl | hpc
      · exact Or.inr (Or.inr ⟨hd, List.mem_cons_self _ _, rfl⟩)
      · exact Or.inl (List.mem_cons_of_mem _ hpc)
    · simp only [addToCollected, if_neg hl, List.mem_cons] at hpc
      rcases hpc with rfl | hpc
      · exact Or.inl (List.mem_cons_self _ _)
      · rcases ih pc hpc with h | h | ⟨pc', hpc', h⟩
        · exact Or.inl (List.mem_cons_of_mem _ h)
        · exact Or.inr (Or.inl h)
        · exact Or.inr (Or.inr ⟨pc', List.mem_cons_of_mem _ hpc', h⟩)

theorem countOf_nil {β : Type} (k : String) :
    countOf ([] : List (PackageCount β)) k = 0 := rfl

theorem boxesOf_nil {β : Type} (k : String) :
    boxesOf ([] : List (PackageCount β)) k = [] := rfl

theorem countOf_cons {β : Type} (hd : PackageCount β)
    (tl : List (PackageCount β)) (k : String) :
    countOf (hd :: tl) k = if hd.label = k then hd.count else countOf tl k := by
  unfold countOf
  by_cases h : hd.label = k
  · rw [List.find?_cons_of_pos _ (by simp [h]), if_pos h]
  · rw [List.find?_cons_of_neg _ (by simp [h]), if_neg h]

theorem boxesOf_cons {β : Type} (hd : PackageCount β)
    (tl : List (PackageCount β)) (k : String) :
    boxesOf (hd :: tl) k = if hd.label = k then hd.boxes else boxesOf tl k := by
  unfold boxesOf
  by_cases h : hd.label = k
  · rw [List.find?_cons_of_pos _ (by simp [h]), if_pos h]
  · rw [List.find?_cons_of_neg _ (by simp [h]), if_neg h]

theorem addToCollected_labels {β : Type} (key : String) (box : β)
    (l : List (PackageCount β)) :
    (addToCollected key box l).map PackageCount.label =
      if key ∈ l.map PackageCount.label then l.map PackageCount.label
      else l.map PackageCount.label ++ [key] := by
  induction l with
  | nil => simp [addToCollected]
  | cons hd tl ih =>
    by_cases hl : hd.label = key
    · simp [addToCollected, if_pos hl, hl]
    · have hkey : ¬key = hd.label := fun h => hl h.symm
      simp only [addToCollected, if_neg hl, List.map_cons, ih,
        List.mem_cons, hkey, false_or]
      by_cases hk : key ∈ tl.map PackageCount.label
      · simp [hk]
      · simp [hk]

theorem addToCollected_countOf_same {β : Type} (key : String) (box : β)
    (l : List (PackageCount β)) :
    countOf (addToCollected key box l) key = countOf l key + 1 := by
  induction l with
  | nil => simp [addToCollected, countOf_cons, countOf_nil]
  | cons hd tl ih =>
    by_cases hl : hd.label = key
    · simp [addToCollected, if_pos hl, countOf_cons, hl]
    · simp [addToCollected, if_neg hl, countOf_cons, hl, ih]

theorem addToCollected_countOf_ne {β : Type} (key : String) (box : β)
    (l : List (PackageCount β)) (k : String) (h : k ≠ key) :
    countOf (addToCollected key box l) k = countOf l k := by
  induction l with
  | nil =>
    simp only [addToCollected, countOf_cons, countOf_nil]
    rw [if_neg (fun hh : key = k => h hh.symm)]
  | cons hd tl ih =>
    by_cases hl : hd.label = key
    · have hne : ¬hd.label = k := by rw [hl]; exact fun hh => h hh.symm
      simp [addToCollected, if_pos hl, countOf_cons, hne]
    · simp [addToCollected, if_neg hl, countOf_cons, ih]

theorem addToCollected_boxesOf_same {β : Type} (key : String) (box : β)
    (l : List (PackageCount β)) :
    boxesOf (addToCollected key box l) key = boxesOf l key ++ [box] := by
  induction l with
  | nil => simp [addToCollected, boxesOf_cons, boxesOf_nil]
  | cons hd tl ih =>
    by_cases hl : hd.label = key
    · simp [addToCollected, if_pos hl, boxesOf_cons, hl]
    · simp [addToCollected, if_neg hl, boxesOf_cons, hl, ih]

theorem addToCollected_boxesOf_ne {β : Type} (key : String) (box : β)
    (l : List (PackageCount β)) (k : String) (h : k ≠ key) :
    boxesOf (addToCollected key box l) k = boxesOf l k := by
  induction l with
  | nil =>
    simp only [addToCollected, boxesOf_cons, boxesOf_nil]
    rw [if_neg (fun hh : key = k => h hh.symm)]
  | cons hd tl ih =>
    by_cases hl : hd.label = key
    · have hne : ¬hd.label = k := by rw [hl]; exact fun hh => h hh.symm
      simp [addToCollected, if_pos hl, boxesOf_cons, hne]
    · simp [addToCollected, if_neg hl, boxesOf_cons, ih]

theorem ptc_fold {β : Type} (cats : List (String × List ℕ)) (gts : List β)
    (dflt : β) (k : String) :
    ∀ (ms : List (ℕ × ℕ)) (acc : List (PackageCount β)),
      countOf (ms.foldl
          (fun collected m =>
            match cats.find? (fun kv => decide (m.1 ∈ kv.2)) with
            | none => collected
            | some kv => addToCollected kv.1 (gts.getD m.2 dflt) collected)
          acc) k =
        countOf acc k +
          (ms.filter (fun m => decide (firstKeyFor cats m.1 = some k))).length ∧
      boxesOf (ms.foldl
          (fun collected m =>
            match cats.find? (fun kv => decide (m.1 ∈ kv.2)) with
            | none => collected
            | some kv => addToCollected kv.1 (gts.getD m.2 dflt) collected)
          acc) k =
        boxesOf acc k ++
          (ms.filter (fun m => decide (firstKeyFor cats m.1 = some k))).map
            (fun m => gts.getD m.2 dflt) := by
  intro ms
  induction ms with
  | nil => simp
  | cons m ms ih =>
    intro acc
    simp only [List.foldl_cons, List.filter_cons]
    cases hfk : cats.find? (fun kv => decide (m.1 ∈ kv.2)) with
    | none =>
      have hne : firstKeyFor cats m.1 = none := by simp [firstKeyFor, hfk]
      rw [show (decide (firstKeyFor cats m.1 = some k)) = false by
        simp [hne]]
      simpa using ih acc
    | some kv =>
      have hfst : firstKeyFor cats m.1 = some kv.1 := by
        simp [firstKeyFor, hfk]
      rcases ih (addToCollected kv.1 (gts.getD m.2 dflt) acc) with ⟨ihc, ihb⟩
      by_cases hk : kv.1 = k
      · have hdec : (decide (firstKeyFor cats m.1 = some k)) = true := by
          simp [hfst, hk]
        constructor
        · rw [ihc, hk, addToCollected_countOf_same]
          simp only [hdec, if_true, List.length_cons]
          omega
        · rw [ihb, hk, addToCollected_boxesOf_same]
          simp only [hdec, if_true, List.map_cons]
          simp [List.append_assoc]
      · have hdec : (decide (firstKeyFor cats m.1 = some k)) = false := by
          simp [hfst, hk]
        constructor
        · rw [ihc, addToCollected_countOf_ne _ _ _ _ (fun hh => hk hh.symm)]
          simp [hdec]
        · rw [ihb, addToCollected_boxesOf_ne _ _ _ _ (fun hh => hk hh.symm)]
          simp [hdec]

theorem ptc_fold_inv {β : Type} (cats : List (String × List ℕ))
    (gts : List β) (dflt : β) :
    ∀ (ms : List (ℕ × ℕ)) (acc : List (PackageCount β)),
      (∀ pc ∈ acc, pc.count = pc.boxes.length ∧ 1 ≤ pc.count) →
      (acc.map PackageCount.label).Nodup →
      (∀ pc ∈ ms.foldl
          (fun collected m =>
            match cats.find? (fun kv => decide (m.1 ∈ kv.2)) with
            | none => collected
            | some kv => addToCollected kv.1 (gts.getD m.2 dflt) collected)
          acc, pc.count = pc.boxes.length ∧ 1 ≤ pc.count) ∧
      ((ms.foldl
          (fun collected m =>
            match cats.find? (fun kv => decide (m.1 ∈ kv.2)) with
            | none => collected
            | some kv => addToCollected kv.1 (gts.getD m.2 dflt) collected)
          acc).map PackageCount.label).Nodup := by
  intro ms
  induction ms with
  | nil => exact fun acc h1 h2 => ⟨h1, h2⟩
  | cons m ms ih =>
    intro acc h1 h2
    simp only [List.foldl_cons]
    cases hfk : cats.find? (fun kv => decide (m.1 ∈ kv.2)) with
    | none => exact ih acc h1 h2
    | some kv =>
      apply ih
      · intro pc hpc
        rcases addToCollected_mem _ _ _ pc hpc with h | h | ⟨pc', hpc', h⟩
        · exact h1 pc h
        · subst h
          exact ⟨rfl, le_refl 1⟩
        · subst h
          rcases h1 pc' hpc' with ⟨hc, hge⟩
          refine ⟨by simp [hc], ?_⟩
          show 1 ≤ pc'.count + 1
          omega
      · rw [addToCollected_labels]
        by_cases hmem : kv.1 ∈ acc.map PackageCount.label
        · simpa [hmem] using h2
        · simp only [if_neg hmem]
          simp [List.nodup_append, h2, hmem]

/-- Claim C10: every package-count object produced by the aggregation step
has its count equal to the length of its boxes list and at least 1, and no
two produced objects carry the same label. -/
theorem package_counts_invariant :
    ∀ (β : Type) (ms : List (ℕ × ℕ)) (cats : List (String × List ℕ))
      (gts : List β) (dflt : β),
      (∀ pc ∈ ProcessCount.process_text_counts ms cats gts dflt,
        pc.count = pc.boxes.length ∧ 1 ≤ pc.count) ∧
      ((ProcessCount.process_text_counts ms cats gts dflt).map
        PackageCount.label).Nodup := by
  intro β ms cats gts dflt
  unfold ProcessCount.process_text_counts
  exact ptc_fold_inv cats gts dflt ms [] (by simp) (by simp)

/-- Witness for C10 on the spec's end-to-end example. -/
theorem package_counts_invariant_witness :
    (∀ pc ∈ ProcessCount.process_text_counts [(0, 0)] [("widget", [0])]
        [[0, 0, 10, 10], [20, 20, 30, 30]] ([] : List ℚ),
      pc.count = pc.boxes.length ∧ 1 ≤ pc.count) ∧
    ((ProcessCount.process_text_counts [(0, 0)] [("widget", [0])]
        [[0, 0, 10, 10], [20, 20, 30, 30]] ([] : List ℚ)).map
      PackageCount.label).Nodup :=
  package_counts_invariant (List ℚ) [(0, 0)] [("widget", [0])]
    [[0, 0, 10, 10], [20, 20, 30, 30]] []

/-- Claim C4: during aggregation of one frame, provided every prediction
index belongs to at most one category (the spec's category invariant, §3),
the package count recorded for each key `k` equals the number of match
pairs whose prediction index belongs to `k`'s category — each such pair
increments it by exactly 1 — and the boxes recorded for `k` are exactly
the matched ground truths' boxes of those pairs, in order; match pairs
whose prediction index belongs to no category contribute to no key, and a
key with no contributing pair has no package-count object at all. -/
theorem process_text_counts_spec :
    ∀ (β : Type) (ms : List (ℕ × ℕ)) (cats : List (String × List ℕ))
      (gts : List β) (dflt : β) (k : String),
      (∀ i : ℕ, cats.countP (fun kv => decide (i ∈ kv.2)) ≤ 1) →
      (countOf (ProcessCount.process_text_counts ms cats gts dflt) k =
        (ms.filter (fun m => decide (firstKeyFor cats m.1 = some k))).length ∧
       boxesOf (ProcessCount.process_text_counts ms cats gts dflt) k =
        (ms.filter (fun m => decide (firstKeyFor cats m.1 = some k))).map
          (fun m => gts.getD m.2 dflt) ∧
       (∀ i : ℕ, firstKeyFor cats i = some k ↔
          ∃ mems, (k, mems) ∈ cats ∧ i ∈ mems) ∧
       (countOf (ProcessCount.process_text_counts ms cats gts dflt) k = 0 →
        ∀ pc ∈ ProcessCount.process_text_counts ms cats gts dflt,
          pc.label ≠ k)) := by
  intro β ms cats gts dflt k huniq
  have hfold := ptc_fold cats gts dflt k ms []
  unfold ProcessCount.process_text_counts
  refine ⟨?_, ?_, ?_, ?_⟩
  · simpa [countOf_nil] using hfold.1
  · simpa [boxesOf_nil] using hfold.2
  · intro i
    constructor
    · intro h
      unfold firstKeyFor at h
      cases hfk : cats.find? (fun kv => decide (i ∈ kv.2)) with
      | none => rw [hfk] at h; simp at h
      | some kv =>
        rw [hfk] at h
        simp at h
        have hmem := List.mem_of_find?_eq_some hfk
        have hpred := List.find?_some hfk
        simp only [decide_eq_true_eq] at hpred
        exact ⟨kv.2, by rw [← h]; exact hmem, hpred⟩
    · rintro ⟨mems, hmem, hi⟩
      unfold firstKeyFor
      cases hfk : cats.find? (fun kv => decide (i ∈ kv.2)) with
      | none =>
        exfalso
        have := List.find?_eq_none.1 hfk (k, mems) hmem
        simp [hi] at this
      | some kv =>
        simp only [Option.map_some', Option.some.injEq]
        have hmemkv := List.mem_of_find?_eq_some hfk
        have hpredkv := List.find?_some hfk
        simp only [decide_eq_true_eq] at hpredkv
        by_contra hne
        have hkm : (k, mems) ≠ kv := by
          intro h
          exact hne (by rw [← h])
        have h2le : 2 ≤ cats.countP (fun kv => decide (i ∈ kv.2)) := by
          rw [List.countP_eq_length_filter]
          have hf1 : (k, mems) ∈ cats.filter (fun kv => decide (i ∈ kv.2)) :=
            List.mem_filter.2 ⟨hmem, by simp [hi]⟩
          have hf2 : kv ∈ cats.filter (fun kv => decide (i ∈ kv.2)) :=
            List.mem_filter.2 ⟨hmemkv, by simp [hpredkv]⟩
          rcases hl : cats.filter (fun kv => decide (i ∈ kv.2)) with _ | ⟨x, _ | ⟨y, t⟩⟩
          · rw [hl] at hf1; simp at hf1
          · rw [hl] at hf1 hf2
            simp only [List.mem_singleton] at hf1 hf2
            exact absurd (hf1.trans hf2.symm) hkm
          · simp [hl]
        have := huniq i
        omega
  · intro hzero pc hpc hlab
    have hinv := (ptc_fold_inv cats gts dflt ms [] (by simp) (by simp)).1
    unfold countOf at hzero
    cases hfind : List.find? (fun pc => decide (pc.label = k))
        (ms.foldl
          (fun collected m =>
            match cats.find? (fun kv => decide (m.1 ∈ kv.2)) with
            | none => collected
            | some kv => addToCollected kv.1 (gts.getD m.2 dflt) collected)
          []) with
    | none =>
      have := List.find?_eq_none.1 hfind pc hpc
      simp [hlab] at this
    | some pc' =>
      rw [hfind] at hzero
      dsimp only at hzero
      have hmem := List.mem_of_find?_eq_some hfind
      have := (hinv pc' hmem).2
      omega

/-- Witness for C4 on the spec's end-to-end example: one match, one
category `"widget"` containing prediction index 0. -/
theorem process_text_counts_spec_witness :
    countOf (ProcessCount.process_text_counts [(0, 0)] [("widget", [0])]
      [[0, 0, 10, 10], [20, 20, 30, 30]] ([] : List ℚ)) "widget" = 1 ∧
    boxesOf (ProcessCount.process_text_counts [(0, 0)] [("widget", [0])]
      [[0, 0, 10, 10], [20, 20, 30, 30]] ([] : List ℚ)) "widget" =
      [[0, 0, 10, 10]] := by
  have h := process_text_counts_spec (List ℚ) [(0, 0)] [("widget", [0])]
    [[0, 0, 10, 10], [20, 20, 30, 30]] [] "widget"
    (fun i => le_trans (List.countP_le_length _) (by simp))
  refine ⟨?_, ?_⟩
  · rw [h.1]
    decide
  · rw [h.2.1]
    decide

/-! ### Matcher: claims C1, C2, C3

The proofs work with `compare_matches` through one simultaneous
specification lemma (`compare_matches_spec`), proved by induction on fuel,
and a loop invariant over `match`'s ground-truth loop. -/

theorem argmaxRow_le {P : ℕ} {α : Type} [LinearOrder α] (row : Fin P → α)
    (hP : 0 < P) : ∀ i, row i ≤ row (argmaxRow row hP) := by
  unfold argmaxRow
  have main : ∀ (l : List (Fin P)) (b : Fin P),
      row b ≤ row (l.foldl (fun best i => if row best < row i then i else best) b) ∧
      ∀ i ∈ l, row i ≤ row (l.foldl (fun best i => if row best < row i then i else best) b) := by
    intro l
    induction l with
    | nil => exact fun b => ⟨le_refl _, by simp⟩
    | cons x xs ih =>
      intro b
      simp only [List.foldl_cons]
      by_cases hx : row b < row x
      · rw [if_pos hx]
        refine ⟨le_trans hx.le (ih x).1, ?_⟩
        intro i hi
        rcases List.mem_cons.1 hi with rfl | hi
        · exact (ih _).1
        · exact (ih _).2 i hi
      · rw [if_neg hx]
        refine ⟨(ih b).1, ?_⟩
        intro i hi
        rcases List.mem_cons.1 hi with rfl | hi
        · exact le_trans (not_lt.1 hx) (ih b).1
        · exact (ih b).2 i hi
  intro i
  exact (main (List.finRange P) ⟨0, hP⟩).2 i (List.mem_finRange i)

theorem argmaxRow_eq_of_strict {P : ℕ} {α : Type} [LinearOrder α]
    (row : Fin P → α) (hP : 0 < P) (p : Fin P)
    (hstrict : ∀ q, q ≠ p → row q < row p) :
    argmaxRow row hP = p := by
  have hmem : ∀ (l : List (Fin P)) (b : Fin P),
      b = p ∨ row b < row p →
      (l.foldl (fun best i => if row best < row i then i else best) b) = p ∨
        row (l.foldl (fun best i => if row best < row i then i else best) b) < row p := by
    intro l
    induction l with
    | nil => exact fun b h => h
    | cons x xs ih =>
      intro b hb
      simp only [List.foldl_cons]
      by_cases hx : row b < row x
      · rw [if_pos hx]
        apply ih
        by_cases hxp : x = p
        · exact Or.inl hxp
        · exact Or.inr (hstrict x hxp)
      · rw [if_neg hx]
        exact ih b hb
  have hle := argmaxRow_le row hP p
  have hinit : (⟨0, hP⟩ : Fin P) = p ∨ row ⟨0, hP⟩ < row p := by
    by_cases h0 : (⟨0, hP⟩ : Fin P) = p
    · exact Or.inl h0
    · exact Or.inr (hstrict _ h0)
  rcases hmem (List.finRange P) ⟨0, hP⟩ hinit with h | h
  · exact h
  · exact absurd hle (not_le.2 h)

theorem filter_singleton_decomp {γ : Type} (q : γ → Bool) :
    ∀ (l : List γ) (a : γ), l.filter q = [a] →
      ∃ l1 l2, l = l1 ++ a :: l2 ∧ (∀ x ∈ l1, ¬q x) ∧ (∀ x ∈ l2, ¬q x) ∧
        q a := by
  intro l
  induction l with
  | nil => intro a h; simp at h
  | cons x xs ih =>
    intro a h
    by_cases hx : q x
    · rw [List.filter_cons_of_pos hx] at h
      have hxa : x = a := by
        have := congrArg (fun l => l.headD x) h
        simpa using this
      subst hxa
      have htl : xs.filter q = [] := by
        have := congrArg List.tail h
        simpa using this
      refine ⟨[], xs, by simp, by simp, ?_, hx⟩
      intro y hy
      have := List.filter_eq_nil_iff.1 htl y hy
      simpa using this
    · rw [List.filter_cons_of_neg hx] at h
      obtain ⟨l1, l2, rfl, h1, h2, ha⟩ := ih a h
      refine ⟨x :: l1, l2, rfl, ?_, h2, ha⟩
      intro y hy
      rcases List.mem_cons.1 hy with rfl | hy
      · exact hx
      · exact h1 y hy

theorem erase_decomp {γ : Type} [BEq γ] [LawfulBEq γ] (a : γ) (l1 l2 : List γ)
    (h : a ∉ l1) : (l1 ++ a :: l2).erase a = l1 ++ l2 := by
  rw [List.erase_append_right _ (by simpa using h), List.erase_cons_head]

theorem setCell_self {G P : ℕ} {α : Type} (grid : Fin G → Fin P → α)
    (g : Fin G) (p : Fin P) (v : α) : setCell grid g p v g p = v := by
  simp [setCell]

theorem setCell_row_ne {G P : ℕ} {α : Type} (grid : Fin G → Fin P → α)
    (g : Fin G) (p : Fin P) (v : α) (g' : Fin G) (p' : Fin P)
    (h : g' ≠ g) : setCell grid g p v g' p' = grid g' p' := by
  simp [setCell, h]

theorem setCell_col_ne {G P : ℕ} {α : Type} (grid : Fin G → Fin P → α)
    (g : Fin G) (p : Fin P) (v : α) (g' : Fin G) (p' : Fin P)
    (h : p' ≠ p) : setCell grid g p v g' p' = grid g' p' := by
  simp [setCell, h]

theorem setCell_cases {G P : ℕ} {α : Type} (grid : Fin G → Fin P → α)
    (g : Fin G) (p : Fin P) (v : α) (g' : Fin G) (p' : Fin P) :
    setCell grid g p v g' p' = grid g' p' ∨ (g' = g ∧ p' = p) := by
  by_cases h : g' = g ∧ p' = p
  · exact Or.inr h
  · exact Or.inl (by simp [setCell, h])

theorem mem_dtis {G P : ℕ} {α : Type} {s : MatchState G P α} {p : Fin P} :
    p ∈ dtis s ↔ ∃ m ∈ s.index_matches, m.1 = p := by
  simp [dtis]

theorem mem_gtis {G P : ℕ} {α : Type} {s : MatchState G P α} {g : Fin G} :
    g ∈ gtis s ↔ ∃ m ∈ s.index_matches, m.2 = g := by
  simp [gtis]

theorem setCell_diff {G P : ℕ} {α : Type} (grid : Fin G → Fin P → α)
    (g : Fin G) (p : Fin P) (v : α) :
    ∀ g' p', setCell grid g p v g' p' ≠ grid g' p' → g' = g ∧ p' = p := by
  intro g' p' h
  by_contra hc
  exact h (by simp [setCell, hc])

/-- List surgery performed by the better-score branch of
`compare_matches`: the unique match `(dti, pre_gti)` is removed and
`(dti, gti)` appended.  Collects every fact about the resulting match list
that the induction needs. -/
theorem replace_match_facts {P G : ℕ} {ms : List (Fin P × Fin G)}
    {dti : Fin P} {pre_gti gti : Fin G}
    (hnd : (ms.map Prod.fst).Nodup) (hng : (ms.map Prod.snd).Nodup)
    (hgti : gti ∉ ms.map Prod.snd)
    (heq : ms.filter (fun m => decide (m.1 = dti)) = [(dti, pre_gti)]) :
    ((ms.erase (dti, pre_gti) ++ [(dti, gti)]).map Prod.fst).Nodup ∧
    ((ms.erase (dti, pre_gti) ++ [(dti, gti)]).map Prod.snd).Nodup ∧
    pre_gti ∉ (ms.erase (dti, pre_gti) ++ [(dti, gti)]).map Prod.snd ∧
    (∀ g, g ∈ (ms.erase (dti, pre_gti) ++ [(dti, gti)]).map Prod.snd →
      g ∈ ms.map Prod.snd ∨ g = gti) ∧
    (∀ p, p ∈ ms.map Prod.fst →
      p ∈ (ms.erase (dti, pre_gti) ++ [(dti, gti)]).map Prod.fst) ∧
    gti ∈ (ms.erase (dti, pre_gti) ++ [(dti, gti)]).map Prod.snd ∧
    (∀ g, g ∈ ms.map Prod.snd → g ≠ pre_gti →
      g ∈ (ms.erase (dti, pre_gti) ++ [(dti, gti)]).map Prod.snd) ∧
    (dti, pre_gti) ∈ ms ∧
    dti ∈ (ms.erase (dti, pre_gti) ++ [(dti, gti)]).map Prod.fst := by
  obtain ⟨m1, m2, hdec, h1, h2, -⟩ :=
    filter_singleton_decomp _ ms (dti, pre_gti) heq
  have hnotm1 : (dti, pre_gti) ∉ m1 := fun hmem => by
    have := h1 _ hmem
    simp at this
  have herase : ms.erase (dti, pre_gti) = m1 ++ m2 := by
    rw [hdec]
    exact erase_decomp _ _ _ hnotm1
  subst hdec
  rw [herase]
  have hfst : ((m1 ++ (dti, pre_gti) :: m2).map Prod.fst) =
      m1.map Prod.fst ++ dti :: m2.map Prod.fst := by simp
  have hsnd : ((m1 ++ (dti, pre_gti) :: m2).map Prod.snd) =
      m1.map Prod.snd ++ pre_gti :: m2.map Prod.snd := by simp
  rw [hfst] at hnd
  rw [hsnd] at hng hgti
  have hpermf : (m1.map Prod.fst ++ dti :: m2.map Prod.fst).Perm
      (dti :: (m1.map Prod.fst ++ m2.map Prod.fst)) :=
    List.perm_middle
  have hperms : (m1.map Prod.snd ++ pre_gti :: m2.map Prod.snd).Perm
      (pre_gti :: (m1.map Prod.snd ++ m2.map Prod.snd)) :=
    List.perm_middle
  have hndc : (dti :: (m1.map Prod.fst ++ m2.map Prod.fst)).Nodup :=
    hpermf.nodup_iff.1 hnd
  have hngc : (pre_gti :: (m1.map Prod.snd ++ m2.map Prod.snd)).Nodup :=
    hperms.nodup_iff.1 hng
  have hdti_notin : dti ∉ m1.map Prod.fst ++ m2.map Prod.fst :=
    (List.nodup_cons.1 hndc).1
  have hpg_notin : pre_gti ∉ m1.map Prod.snd ++ m2.map Prod.snd :=
    (List.nodup_cons.1 hngc).1
  have hnd12 : (m1.map Prod.fst ++ m2.map Prod.fst).Nodup :=
    (List.nodup_cons.1 hndc).2
  have hng12 : (m1.map Prod.snd ++ m2.map Prod.snd).Nodup :=
    (List.nodup_cons.1 hngc).2
  have hgti12 : gti ∉ m1.map Prod.snd ++ m2.map Prod.snd := by
    intro h
    apply hgti
    rcases List.mem_append.1 h with h | h
    · exact List.mem_append_left _ h
    · exact List.mem_append_right _ (List.mem_cons_of_mem _ h)
  have hpre_mem : pre_gti ∈ m1.map Prod.snd ++ pre_gti :: m2.map Prod.snd :=
    List.mem_append_right _ (List.mem_cons_self _ _)
  have hpre_ne_gti : pre_gti ≠ gti := by
    intro h
    exact hgti (h ▸ hpre_mem)
  refine ⟨?_, ?_, ?_, ?_, ?_, ?_, ?_, ?_, ?_⟩
  · rw [show ((m1 ++ m2 ++ [(dti, gti)]).map Prod.fst) =
        (m1.map Prod.fst ++ m2.map Prod.fst) ++ [dti] by simp]
    exact (List.perm_append_singleton _ _).nodup_iff.2
      (List.nodup_cons.2 ⟨hdti_notin, hnd12⟩)
  · rw [show ((m1 ++ m2 ++ [(dti, gti)]).map Prod.snd) =
        (m1.map Prod.snd ++ m2.map Prod.snd) ++ [gti] by simp]
    exact (List.perm_append_singleton _ _).nodup_iff.2
      (List.nodup_cons.2 ⟨hgti12, hng12⟩)
  · intro h
    simp only [List.map_append, List.map_cons, List.map_nil,
      List.mem_append, List.mem_singleton] at h
    rcases h with (h | h) | h
    · exact hpg_notin (List.mem_append_left _ h)
    · exact hpg_notin (List.mem_append_right _ h)
    · exact hpre_ne_gti h
  · intro g hg
    simp only [List.map_append, List.map_cons, List.map_nil,
      List.mem_append, List.mem_singleton, List.mem_cons] at hg ⊢
    tauto
  · intro p hp
    simp only [List.map_append, List.map_cons, List.map_nil,
      List.mem_append, List.mem_singleton, List.mem_cons] at hp ⊢
    tauto
  · simp
  · intro g hg hne
    simp only [List.map_append, List.map_cons, List.map_nil,
      List.mem_append, List.mem_singleton, List.mem_cons] at hg ⊢
    rcases hg with hg | hg | hg
    · tauto
    · exact absurd hg hne
    · tauto
  · exact List.mem_append_right _ (List.mem_cons_self _ _)
  · simp

/-- The simultaneous specification of `compare_matches`, proved by
induction on fuel.  Under the call-site conditions that `match()` and the
recursion itself maintain — the 1:1 invariant, `gti` currently unmatched,
and `iou` being the maximum of row `gti` attained at `dti` — a successful
call preserves the 1:1 invariant (claim C1), matches no ground truth other
than those already matched and `gti` itself, never unmatches a matched
prediction, only changes grid cells of matched predictions, and leaves
`gti` matched unless its remaining row is entirely nonpositive; finally it
preserves the "matched or row exhausted" state of every other ground
truth. -/
theorem compare_matches_spec {G P : ℕ} {α : Type} [LinearOrder α] [Zero α]
    (hP : 0 < P) :
    ∀ (fuel : ℕ) (s : MatchState G P α) (dti : Fin P) (gti : Fin G)
      (iou : α) (s' : MatchState G P α),
      MatchDetections.compare_matches hP fuel s dti gti iou = .ok s' →
      MatchInv s →
      gti ∉ gtis s →
      iou = s.iou_grid gti dti →
      (∀ p, s.iou_grid gti p ≤ iou) →
      MatchInv s' ∧
      (∀ g, g ∈ gtis s' → g ∈ gtis s ∨ g = gti) ∧
      (∀ p, p ∈ dtis s → p ∈ dtis s') ∧
      (∀ g p, s'.iou_grid g p ≠ s.iou_grid g p → p ∈ dtis s') ∧
      (gti ∈ gtis s' ∨ ∀ p, s'.iou_grid gti p ≤ 0) ∧
      (∀ g, g ≠ gti → (g ∈ gtis s ∨ ∀ p, s.iou_grid g p ≤ 0) →
        (g ∈ gtis s' ∨ ∀ p, s'.iou_grid g p ≤ 0)) := by
  intro fuel
  induction fuel with
  | zero =>
    intro s dti gti iou s' H1
    simp [MatchDetections.compare_matches] at H1
  | succ fuel IH =>
    intro s dti gti iou s' H1 H2 H3 H4 H5
    rw [MatchDetections.compare_matches] at H1
    split at H1
    · -- exactly one existing match with prediction index dti
      next x dti' pre_gti heq =>
      have hdti' : dti' = dti := by
        have hmem : (dti', pre_gti) ∈
            List.filter (fun m => decide (m.1 = dti)) s.index_matches := by
          rw [heq]; simp
        have := (List.mem_filter.1 hmem).2
        simpa using this
      have hdti2 : dti = dti' := hdti'.symm
      subst hdti2
      obtain ⟨c1, c2, c3, c4, c5, c6, c7, c8, c9⟩ :=
        replace_match_facts (by simpa [dtis] using H2.1)
          (by simpa [gtis] using H2.2) (by simpa [gtis] using H3) heq
      split_ifs at H1 with hbetter
      · -- new score strictly better: replace the match, rematch pre_gti
        dsimp only at H1
        have hgti_ne_pre : gti ≠ pre_gti := by
          intro h
          exact H3 (h ▸ mem_gtis.2 ⟨(dti, pre_gti), c8, rfl⟩)
        split_ifs at H1 with hpos
        · obtain ⟨B1, B2, B3, B4, B5, B6⟩ :=
            IH _ _ _ _ s' H1
              ⟨by simpa [dtis] using c1, by simpa [gtis] using c2⟩
              (by simpa [gtis] using c3) rfl (argmaxRow_le _ hP)
          refine ⟨B1, ?_, ?_, ?_, ?_, ?_⟩
          · intro g hg
            rcases B2 g hg with h | h
            · rcases c4 g (by simpa [gtis] using h) with h' | h'
              · exact Or.inl (by simpa [gtis] using h')
              · exact Or.inr h'
            · rw [h]
              exact Or.inl (mem_gtis.2 ⟨(dti, pre_gti), c8, rfl⟩)
          · intro p hp
            apply B3
            simpa [dtis] using c5 p (by simpa [dtis] using hp)
          · intro g p hdiff
            by_cases hsame :
              s'.iou_grid g p = setCell s.iou_grid pre_gti dti 0 g p
            · have hne' : setCell s.iou_grid pre_gti dti 0 g p ≠
                  s.iou_grid g p := by
                rw [← hsame]; exact hdiff
              obtain ⟨hg', hp'⟩ := setCell_diff _ _ _ _ _ _ hne'
              rw [hp']
              exact B3 dti (by simpa [dtis] using c9)
            · exact B4 g p hsame
          · exact B6 gti hgti_ne_pre (Or.inl (by simpa [gtis] using c6))
          · intro g hne hprem
            by_cases hgpre : g = pre_gti
            · subst hgpre
              exact B5
            · apply B6 g hgpre
              rcases hprem with h | h
              · exact Or.inl
                  (by simpa [gtis] using
                    c7 g (by simpa [gtis] using h) hgpre)
              · refine Or.inr fun p => ?_
                dsimp only
                rw [setCell_row_ne _ _ _ _ _ _ hgpre]
                exact h p
        · -- pre_gti has no positive candidate left: done, s' = s1
          have hs' : s' = ⟨setCell s.iou_grid pre_gti dti 0,
              Function.update s.iou_list dti iou,
              s.index_matches.erase (dti, pre_gti) ++ [(dti, gti)],
              s.index_unmatched_dt_grouped⟩ := (Except.ok.inj H1).symm
          subst hs'
          refine ⟨⟨by simpa [dtis] using c1, by simpa [gtis] using c2⟩,
            ?_, ?_, ?_, ?_, ?_⟩
          · intro g hg
            rcases c4 g (by simpa [gtis] using hg) with h | h
            · exact Or.inl (by simpa [gtis] using h)
            · exact Or.inr h
          · intro p hp
            simpa [dtis] using c5 p (by simpa [dtis] using hp)
          · intro g p hdiff
            obtain ⟨hg', hp'⟩ := setCell_diff _ _ _ _ _ _ hdiff
            rw [hp']
            simpa [dtis] using c9
          · exact Or.inl (by simpa [gtis] using c6)
          · intro g hne hprem
            by_cases hgpre : g = pre_gti
            · refine Or.inr fun p => ?_
              dsimp only
              rw [hgpre]
              have hle := argmaxRow_le (setCell s.iou_grid pre_gti dti 0
                pre_gti) hP p
              exact le_trans hle (not_lt.1 hpos)
            · rcases hprem with h | h
              · exact Or.inl
                  (by simpa [gtis] using
                    c7 g (by simpa [gtis] using h) hgpre)
              · refine Or.inr fun p => ?_
                dsimp only
                rw [setCell_row_ne _ _ _ _ _ _ hgpre]
                exact h p
      · -- existing match as good or better: zero own cell, retry gti
        dsimp only at H1
        split_ifs at H1 with hpos
        · obtain ⟨B1, B2, B3, B4, B5, B6⟩ :=
            IH _ _ _ _ s' H1 H2 H3 rfl (argmaxRow_le _ hP)
          refine ⟨B1, ?_, ?_, ?_, B5, ?_⟩
          · exact fun g hg => B2 g hg
          · exact fun p hp => B3 p hp
          · intro g p hdiff
            by_cases hsame :
              s'.iou_grid g p = setCell s.iou_grid gti dti 0 g p
            · have hne' : setCell s.iou_grid gti dti 0 g p ≠
                  s.iou_grid g p := by
                rw [← hsame]; exact hdiff
              obtain ⟨hg', hp'⟩ := setCell_diff _ _ _ _ _ _ hne'
              rw [hp']
              exact B3 dti (mem_dtis.2 ⟨(dti, pre_gti), c8, rfl⟩)
            · exact B4 g p hsame
          · intro g hne hprem
            apply B6 g hne
            rcases hprem with h | h
            · exact Or.inl h
            · refine Or.inr fun p => ?_
              dsimp only
              rw [setCell_row_ne _ _ _ _ _ _ hne]
              exact h p
        · have hs' : s' = ⟨setCell s.iou_grid gti dti 0, s.iou_list,
              s.index_matches, s.index_unmatched_dt_grouped⟩ :=
            (Except.ok.inj H1).symm
          subst hs'
          refine ⟨H2, ?_, ?_, ?_, ?_, ?_⟩
          · exact fun g hg => Or.inl hg
          · exact fun p hp => hp
          · intro g p hdiff
            obtain ⟨hg', hp'⟩ := setCell_diff _ _ _ _ _ _ hdiff
            rw [hp']
            exact mem_dtis.2 ⟨(dti, pre_gti), c8, rfl⟩
          · refine Or.inr fun p => ?_
            dsimp only
            have hle := argmaxRow_le (setCell s.iou_grid gti dti 0 gti) hP p
            exact le_trans hle (not_lt.1 hpos)
          · intro g hne hprem
            rcases hprem with h | h
            · exact Or.inl h
            · refine Or.inr fun p => ?_
              dsimp only
              rw [setCell_row_ne _ _ _ _ _ _ hne]
              exact h p
    · -- no existing match with prediction index dti
      next x heq =>
      have hnod : ∀ m ∈ s.index_matches, m.1 ≠ dti := by
        intro m hm
        have := List.filter_eq_nil_iff.1 heq m hm
        simpa using this
      split_ifs at H1 with hiou
      · have hs' : s' = ⟨s.iou_grid, Function.update s.iou_list dti iou,
            s.index_matches ++ [(dti, gti)],
            s.index_unmatched_dt_grouped⟩ := (Except.ok.inj H1).symm
        subst hs'
        have hdti_not : dti ∉ dtis s := by
          intro hd
          obtain ⟨m, hm, hm1⟩ := mem_dtis.1 hd
          exact hnod m hm hm1
        refine ⟨⟨?_, ?_⟩, ?_, ?_, ?_, ?_, ?_⟩
        · show ((s.index_matches ++ [(dti, gti)]).map Prod.fst).Nodup
          rw [List.map_append]
          exact (List.perm_append_singleton _ _).nodup_iff.2
            (List.nodup_cons.2 ⟨by simpa [dtis] using hdti_not,
              by simpa [dtis] using H2.1⟩)
        · show ((s.index_matches ++ [(dti, gti)]).map Prod.snd).Nodup
          rw [List.map_append]
          exact (List.perm_append_singleton _ _).nodup_iff.2
            (List.nodup_cons.2 ⟨by simpa [gtis] using H3,
              by simpa [gtis] using H2.2⟩)
        · intro g hg
          simp only [gtis, List.map_append, List.mem_append] at hg
          rcases hg with h | h
          · exact Or.inl (by simpa [gtis] using h)
          · exact Or.inr (by simpa using h)
        · intro p hp
          simp only [dtis, List.map_append, List.mem_append]
          exact Or.inl (by simpa [dtis] using hp)
        · intro g p hdiff
          exact absurd rfl hdiff
        · refine Or.inl ?_
          simp [gtis]
        · intro g hne hprem
          rcases hprem with h | h
          · refine Or.inl ?_
            simp only [gtis, List.map_append, List.mem_append]
            exact Or.inl (by simpa [gtis] using h)
          · exact Or.inr h
      · have hs' : s' = s := (Except.ok.inj H1).symm
        subst hs'
        refine ⟨H2, fun g hg => Or.inl hg, fun p hp => hp,
          fun g p hdiff => absurd rfl hdiff, ?_, fun g hne hprem => hprem⟩
        refine Or.inr fun p => ?_
        exact le_trans (H5 p) (not_lt.1 hiou)
    · -- two or more existing matches: IndexError
      exact absurd H1 (by simp)

theorem setRow_self {G P : ℕ} {α : Type} (grid : Fin G → Fin P → α)
    (g : Fin G) (row : Fin P → α) : setRow grid g row g = row := by
  simp [setRow]

theorem setRow_ne {G P : ℕ} {α : Type} (grid : Fin G → Fin P → α)
    (g : Fin G) (row : Fin P → α) (g' : Fin G) (h : g' ≠ g) :
    setRow grid g row g' = grid g' := by
  simp [setRow, h]

theorem except_bind_ok {ε γ δ : Type} {x : Except ε γ} {f : γ → Except ε δ}
    {r : δ} (h : (x >>= f) = .ok r) : ∃ v, x = .ok v ∧ f v = .ok r := by
  cases x with
  | error e => exact absurd h (by simp [Bind.bind, Except.bind])
  | ok v => exact ⟨v, rfl, h⟩

/-- Effect of one iteration of the ground-truth loop on the loop
invariant, stated over any state `s2` that agrees with `s` except for row
`g` freshly overwritten with the similarity values (this covers both
values of the `group` flag, which differ only in the grouped-indices
field). -/
theorem matchStep_core {G P : ℕ} {α : Type} [LinearOrder α] [Zero α]
    (rowOf : Fin G → Fin P → α) (hP : 0 < P)
    (s s2 s' : MatchState G P α) (g : Fin G) (done : List (Fin G))
    (hgrid : s2.iou_grid = setRow s.iou_grid g (rowOf g))
    (hmatches : s2.index_matches = s.index_matches)
    (hcomp : MatchDetections.compare_matches hP (G * P + 1) s2
      (argmaxRow (s2.iou_grid g) hP) g
      (s2.iou_grid g (argmaxRow (s2.iou_grid g) hP)) = .ok s')
    (hInv : MatchLoopInv rowOf s done) (hg : g ∉ done) :
    MatchLoopInv rowOf s' (done ++ [g]) := by
  obtain ⟨hM, hsub, hP1, hchange⟩ := hInv
  have hdtis2 : dtis s2 = dtis s := by simp [dtis, hmatches]
  have hgtis2 : gtis s2 = gtis s := by simp [gtis, hmatches]
  have hM2 : MatchInv s2 := ⟨hdtis2.symm ▸ hM.1, hgtis2.symm ▸ hM.2⟩
  have hg2 : g ∉ gtis s2 := by
    rw [hgtis2]
    intro hmem
    exact hg (hsub g hmem)
  obtain ⟨B1, B2, B3, B4, B5, B6⟩ :=
    compare_matches_spec hP _ s2 _ g _ s' hcomp hM2 hg2 rfl
      (argmaxRow_le _ hP)
  refine ⟨B1, ?_, ?_, ?_⟩
  · intro g' hg'
    rcases B2 g' hg' with h | h
    · exact List.mem_append_left _ (hsub g' (hgtis2 ▸ h))
    · exact List.mem_append_right _ (by simp [h])
  · intro g' hg'
    rcases List.mem_append.1 hg' with h | h
    · have hne : g' ≠ g := fun hh => hg (hh ▸ h)
      apply B6 g' hne
      rcases hP1 g' h with h' | h'
      · exact Or.inl (hgtis2 ▸ h')
      · refine Or.inr fun p => ?_
        rw [hgrid, setRow_ne _ _ _ _ hne]
        exact h' p
    · simp only [List.mem_singleton] at h
      subst h
      exact B5
  · intro g' p hg' hdiff
    rcases List.mem_append.1 hg' with h | h
    · have hne : g' ≠ g := fun hh => hg (hh ▸ h)
      by_cases hsame : s'.iou_grid g' p = s2.iou_grid g' p
      · have : s.iou_grid g' p ≠ rowOf g' p := by
          rw [← setRow_ne s.iou_grid g (rowOf g) g' hne, ← hgrid, ← hsame]
          exact hdiff
        have hp' := hchange g' p h this
        exact B3 p (hdtis2 ▸ hp')
      · exact B4 g' p hsame
    · simp only [List.mem_singleton] at h
      subst h
      by_cases hsame : s'.iou_grid g' p = s2.iou_grid g' p
      · exfalso
        apply hdiff
        rw [hsame, hgrid, setRow_self]
      · exact B4 g' p hsame

theorem matchStep_spec {G P : ℕ} {α : Type} [LinearOrder α] [Zero α]
    (rowOf : Fin G → Fin P → α) (group : Bool) (hP : 0 < P)
    (s s' : MatchState G P α) (g : Fin G) (done : List (Fin G))
    (hstep : matchStep rowOf group hP s g = .ok s')
    (hInv : MatchLoopInv rowOf s done) (hg : g ∉ done) :
    MatchLoopInv rowOf s' (done ++ [g]) := by
  unfold matchStep at hstep
  cases group with
  | false =>
    dsimp only at hstep
    rw [if_neg Bool.false_ne_true] at hstep
    exact matchStep_core rowOf hP s
      ⟨setRow s.iou_grid g (rowOf g), s.iou_list, s.index_matches,
        s.index_unmatched_dt_grouped⟩ s' g done rfl rfl hstep hInv hg
  | true =>
    dsimp only at hstep
    rw [if_pos rfl] at hstep
    exact matchStep_core rowOf hP s
      ⟨setRow s.iou_grid g (rowOf g), s.iou_list, s.index_matches,
        s.index_unmatched_dt_grouped ++
          [(List.finRange P).filter
            (fun p => decide (setRow s.iou_grid g (rowOf g) g p ≠ 0))]⟩
      s' g done rfl rfl hstep hInv hg

theorem matchLoop_inv {G P : ℕ} {α : Type} [LinearOrder α] [Zero α]
    (rowOf : Fin G → Fin P → α) (group : Bool) (hP : 0 < P) :
    ∀ (l : List (Fin G)) (done : List (Fin G)) (s s' : MatchState G P α),
      l.Nodup → (∀ g ∈ l, g ∉ done) → MatchLoopInv rowOf s done →
      l.foldlM (matchStep rowOf group hP) s = .ok s' →
      MatchLoopInv rowOf s' (done ++ l) := by
  intro l
  induction l with
  | nil =>
    intro done s s' _ _ hInv hfold
    simp only [List.foldlM_nil] at hfold
    have : s = s' := Except.ok.inj hfold
    subst this
    simpa using hInv
  | cons g l ih =>
    intro done s s' hnd hdisj hInv hfold
    rw [List.foldlM_cons] at hfold
    obtain ⟨s1, hstep, hrest⟩ := except_bind_ok hfold
    have hInv1 := matchStep_spec rowOf group hP s s1 g done hstep hInv
      (hdisj g (List.mem_cons_self _ _))
    have hnotin : ∀ g' ∈ l, g' ∉ done ++ [g] := by
      intro g' hg' hmem
      rcases List.mem_append.1 hmem with h | h
      · exact hdisj g' (List.mem_cons_of_mem _ hg') h
      · simp only [List.mem_singleton] at h
        exact (List.nodup_cons.1 hnd).1 (h ▸ hg')
    have := ih (done ++ [g]) s1 s' (List.nodup_cons.1 hnd).2 hnotin hInv1
      hrest
    simpa [List.append_assoc] using this

/-- Global properties of a completed `match()` run over an arbitrary
similarity function: the 1:1 invariant holds, every ground truth is
matched or has a fully nonpositive (working) row, and a grid cell that no
longer holds the similarity value belongs to a matched prediction. -/
theorem matchFn_ok {G P : ℕ} {α : Type} [LinearOrder α] [Zero α]
    (rowOf : Fin G → Fin P → α) (group : Bool) (res : MatchResult G P α)
    (h : MatchDetections.matchFn rowOf group = .ok res) :
    MatchInv res.state ∧
    (∀ g : Fin G, g ∈ gtis res.state ∨
      ∀ p : Fin P, res.state.iou_grid g p ≤ 0) ∧
    (∀ (g : Fin G) (p : Fin P), res.state.iou_grid g p ≠ rowOf g p →
      p ∈ dtis res.state) := by
  unfold MatchDetections.matchFn at h
  split_ifs at h with hGP
  · have hres : res = ⟨initState G P α, List.finRange P, List.finRange G⟩ :=
      (Except.ok.inj h).symm
    subst hres
    refine ⟨⟨by simp [dtis, initState], by simp [gtis, initState]⟩, ?_, ?_⟩
    · rcases hGP with h0 | h0
      · intro g
        exact absurd g.isLt (by omega)
      · intro g
        exact Or.inr fun p => absurd p.isLt (by omega)
    · rcases hGP with h0 | h0
      · intro g
        exact absurd g.isLt (by omega)
      · intro g p
        exact absurd p.isLt (by omega)
  · obtain ⟨final, hfold, h⟩ := except_bind_ok h
    obtain ⟨udt, hudt, h⟩ := except_bind_ok h
    obtain ⟨ugt, hugt, h⟩ := except_bind_ok h
    have hres : res = ⟨final, udt, ugt⟩ := (Except.ok.inj h).symm
    subst hres
    have hinit : MatchLoopInv rowOf (initState G P α) [] := by
      refine ⟨⟨by simp [dtis, initState], by simp [gtis, initState]⟩,
        ?_, ?_, ?_⟩
      · intro g hg
        simp [gtis, initState] at hg
      · intro g hg
        simp at hg
      · intro g p hg
        simp at hg
    have hloop := matchLoop_inv rowOf group _ (List.finRange G) []
      (initState G P α) final (List.nodup_finRange G) (by simp) hinit hfold
    obtain ⟨hM, _, hP1, hchange⟩ := hloop
    exact ⟨hM, fun g => hP1 g (by simp [List.mem_finRange]),
      fun g p => hchange g p (by simp [List.mem_finRange])⟩

theorem mapM_ok {γ δ : Type} (f : γ → Except MatchError δ) :
    ∀ (l : List γ) (r : List δ), l.mapM f = .ok r →
      r.length = l.length ∧
      ∀ (i : ℕ) (d : γ) (d' : δ), i < l.length →
        f (l.getD i d) = .ok (r.getD i d') := by
  intro l
  induction l with
  | nil =>
    intro r h
    simp only [List.mapM_nil] at h
    have : ([] : List δ) = r := Except.ok.inj h
    subst this
    exact ⟨rfl, fun i d d' hi => absurd hi (by simp)⟩
  | cons a l ih =>
    intro r h
    rw [List.mapM_cons] at h
    obtain ⟨b, hb, h⟩ := except_bind_ok h
    obtain ⟨bs, hbs, h⟩ := except_bind_ok h
    have : b :: bs = r := Except.ok.inj h
    subst this
    obtain ⟨hlen, hget⟩ := ih bs hbs
    refine ⟨by simp [hlen], ?_⟩
    intro i d d' hi
    cases i with
    | zero => simpa using hb
    | succ i => simpa using hget i d d' (by simpa using hi)

/-- Claim C1: for every ground-truth box list, prediction box list, metric
name and leniency factor, a completed `MatchDetections.match()` run
produces a match set in which each prediction index and each ground-truth
index occurs at most once. -/
theorem match_nodup :
    ∀ (metric : String) (L : ℤ) (gts preds : List (List ℝ)) (group : Bool)
      (res : MatchResult gts.length preds.length ℝ),
      MatchDetections.matchRun metric L gts preds group = .ok res →
      (res.state.index_matches.map Prod.fst).Nodup ∧
      (res.state.index_matches.map Prod.snd).Nodup := by
  intro metric L gts preds group res h
  unfold MatchDetections.matchRun MatchDetections.matchWith at h
  obtain ⟨rows, hrows, h⟩ := except_bind_ok h
  have hspec := matchFn_ok _ group res h
  exact ⟨hspec.1.1, hspec.1.2⟩

/-- Witness for C1 at the empty-input run (the early return of
`match()`). -/
theorem match_nodup_witness :
    MatchDetections.matchRun "iou" 1 [] [] false = .ok emptyMatchResult ∧
    (emptyMatchResult.state.index_matches.map Prod.fst).Nodup ∧
    (emptyMatchResult.state.index_matches.map Prod.snd).Nodup :=
  ⟨rfl, match_nodup "iou" 1 [] [] false emptyMatchResult rfl⟩

theorem ok_bind {ε γ δ : Type} (v : γ) (f : γ → Except ε δ) :
    ((Except.ok v : Except ε γ) >>= f) = f v := rfl

/-- One step of `compare_matches` when the prediction is not yet matched
and the score is positive: the match is recorded. -/
theorem compare_fresh {G P : ℕ} {α : Type} [LinearOrder α] [Zero α]
    (hP : 0 < P) (fuel : ℕ) (s : MatchState G P α) (dti : Fin P)
    (gti : Fin G) (iou : α)
    (hf : s.index_matches.filter (fun m => decide (m.1 = dti)) = [])
    (hiou : 0 < iou) :
    MatchDetections.compare_matches hP (fuel + 1) s dti gti iou =
      .ok ⟨s.iou_grid, Function.update s.iou_list dti iou,
        s.index_matches ++ [(dti, gti)], s.index_unmatched_dt_grouped⟩ := by
  rw [MatchDetections.compare_matches, hf]
  dsimp only
  rw [if_pos hiou]

/-- One step of `compare_matches` in the duplicate case when the new score
is strictly better: the old match is replaced and its ground truth is
rematched against its next-best candidate. -/
theorem compare_dup_better {G P : ℕ} {α : Type} [LinearOrder α] [Zero α]
    (hP : 0 < P) (fuel : ℕ) (s : MatchState G P α) (dti : Fin P)
    (gti pre_gti : Fin G) (iou : α)
    (hf : s.index_matches.filter (fun m => decide (m.1 = dti)) =
      [(dti, pre_gti)])
    (hlt : s.iou_list dti < iou) :
    MatchDetections.compare_matches hP (fuel + 1) s dti gti iou =
      (if 0 < (setCell s.iou_grid pre_gti dti 0) pre_gti
          (argmaxRow ((setCell s.iou_grid pre_gti dti 0) pre_gti) hP) then
        MatchDetections.compare_matches hP fuel
          ⟨setCell s.iou_grid pre_gti dti 0,
           Function.update s.iou_list dti iou,
           s.index_matches.erase (dti, pre_gti) ++ [(dti, gti)],
           s.index_unmatched_dt_grouped⟩
          (argmaxRow ((setCell s.iou_grid pre_gti dti 0) pre_gti) hP)
          pre_gti
          ((setCell s.iou_grid pre_gti dti 0) pre_gti
            (argmaxRow ((setCell s.iou_grid pre_gti dti 0) pre_gti) hP))
       else .ok ⟨setCell s.iou_grid pre_gti dti 0,
         Function.update s.iou_list dti iou,
         s.index_matches.erase (dti, pre_gti) ++ [(dti, gti)],
         s.index_unmatched_dt_grouped⟩) := by
  rw [MatchDetections.compare_matches, hf]
  dsimp only
  rw [if_pos hlt]

/-- One step of `compare_matches` in the duplicate case when the existing
match is as good or better: the current ground truth's cell is zeroed and
it retries its next-best candidate. -/
theorem compare_dup_keep {G P : ℕ} {α : Type} [LinearOrder α] [Zero α]
    (hP : 0 < P) (fuel : ℕ) (s : MatchState G P α) (dti : Fin P)
    (gti pre_gti : Fin G) (iou : α)
    (hf : s.index_matches.filter (fun m => decide (m.1 = dti)) =
      [(dti, pre_gti)])
    (hge : ¬s.iou_list dti < iou) :
    MatchDetections.compare_matches hP (fuel + 1) s dti gti iou =
      (if 0 < (setCell s.iou_grid gti dti 0) gti
          (argmaxRow ((setCell s.iou_grid gti dti 0) gti) hP) then
        MatchDetections.compare_matches hP fuel
          ⟨setCell s.iou_grid gti dti 0, s.iou_list, s.index_matches,
           s.index_unmatched_dt_grouped⟩
          (argmaxRow ((setCell s.iou_grid gti dti 0) gti) hP) gti
          ((setCell s.iou_grid gti dti 0) gti
            (argmaxRow ((setCell s.iou_grid gti dti 0) gti) hP))
       else .ok ⟨setCell s.iou_grid gti dti 0, s.iou_list, s.index_matches,
         s.index_unmatched_dt_grouped⟩) := by
  rw [MatchDetections.compare_matches, hf]
  dsimp only
  rw [if_neg hge]

/-- Symbolic execution of `match()` on two ground truths whose similarity
rows both peak strictly at the same prediction `pstar`, with positive peak
scores.  Ground truth 1 takes `pstar` exactly when its peak is strictly
larger (on a tie the earlier match is kept); the loser retries the argmax
of its row with `pstar` zeroed out (`row0x` resp. `row1x`) and is matched
there when that score is positive, else it stays unmatched. -/
theorem conflict_scenario {P : ℕ} {α : Type} [LinearOrder α] [Zero α]
    (rowOf : Fin 2 → Fin P → α) (group : Bool) (hP : 0 < P) (pstar : Fin P)
    (h0 : ∀ q, q ≠ pstar → rowOf 0 q < rowOf 0 pstar)
    (h1 : ∀ q, q ≠ pstar → rowOf 1 q < rowOf 1 pstar)
    (hs0 : 0 < rowOf 0 pstar) (hs1 : 0 < rowOf 1 pstar)
    (row0x row1x : Fin P → α)
    (hrow0x : row0x = fun q => if q = pstar then 0 else rowOf 0 q)
    (hrow1x : row1x = fun q => if q = pstar then 0 else rowOf 1 q) :
    ∃ res : MatchResult 2 P α,
      MatchDetections.matchFn rowOf group = .ok res ∧
      res.state.index_matches =
        (if rowOf 0 pstar < rowOf 1 pstar then
          (pstar, (1 : Fin 2)) ::
            (if 0 < row0x (argmaxRow row0x hP) then
              [(argmaxRow row0x hP, (0 : Fin 2))] else [])
         else
          (pstar, (0 : Fin 2)) ::
            (if 0 < row1x (argmaxRow row1x hP) then
              [(argmaxRow row1x hP, (1 : Fin 2))] else [])) ∧
      res.index_unmatched_gt =
        (if rowOf 0 pstar < rowOf 1 pstar then
          (if 0 < row0x (argmaxRow row0x hP) then [] else [(0 : Fin 2)])
         else
          (if 0 < row1x (argmaxRow row1x hP) then [] else [(1 : Fin 2)])) := by
  have h20 : ¬((2 : ℕ) = 0 ∨ P = 0) := by omega
  have hcompare1 : ∀ ms : List (List (Fin P)),
      MatchDetections.compare_matches hP (2 * P + 1)
        (⟨setRow (fun _ _ => (0 : α)) 0 (rowOf 0), fun _ => (0 : α),
          [], ms⟩ : MatchState 2 P α) pstar 0 (rowOf 0 pstar) =
        .ok ⟨setRow (fun _ _ => (0 : α)) 0 (rowOf 0),
          Function.update (fun _ => (0 : α)) pstar (rowOf 0 pstar),
          [(pstar, (0 : Fin 2))], ms⟩ :=
    fun ms => compare_fresh hP (2 * P) _ pstar 0 (rowOf 0 pstar) rfl hs0
  have hstep0 : ∃ grp1 : List (List (Fin P)),
      matchStep rowOf group hP (initState 2 P α) 0 = .ok
        ⟨setRow (fun _ _ => (0 : α)) 0 (rowOf 0),
         Function.update (fun _ => (0 : α)) pstar (rowOf 0 pstar),
         [(pstar, (0 : Fin 2))], grp1⟩ := by
    cases group with
    | false =>
      refine ⟨(initState 2 P α).index_unmatched_dt_grouped, ?_⟩
      unfold matchStep
      dsimp only
      rw [if_neg Bool.false_ne_true]
      dsimp only
      rw [setRow_self]
      rw [argmaxRow_eq_of_strict (rowOf 0) hP pstar h0]
      exact hcompare1 _
    | true =>
      refine ⟨(initState 2 P α).index_unmatched_dt_grouped ++
        [(List.finRange P).filter (fun p =>
          decide (setRow (initState 2 P α).iou_grid 0 (rowOf 0) 0 p ≠ 0))],
        ?_⟩
      unfold matchStep
      dsimp only
      rw [if_pos rfl]
      dsimp only
      rw [setRow_self]
      rw [argmaxRow_eq_of_strict (rowOf 0) hP pstar h0]
      exact hcompare1 _
  obtain ⟨grp1, hstep0⟩ := hstep0
  unfold MatchDetections.matchFn
  rw [dif_neg h20]
  rw [show List.finRange 2 = [(0 : Fin 2), 1] from by decide]
  simp only [List.foldlM_cons, List.foldlM_nil]
  rw [hstep0]
  simp only [ok_bind]
  by_cases hcase : rowOf 0 pstar < rowOf 1 pstar
  · by_cases hpos2 : 0 < row0x (argmaxRow row0x hP)
    · have hne20 : argmaxRow row0x hP ≠ pstar := by
        intro he
        rw [he, hrow0x] at hpos2
        simp at hpos2
      have hrowA : (setCell (setRow (setRow ((fun _ _ => (0 : α)) : Fin 2 → Fin P → α) 0
          (rowOf 0)) 1 (rowOf 1)) 0 pstar 0) 0 = row0x := by
        funext q
        rw [hrow0x]
        by_cases hq : q = pstar
        · subst hq
          simp [setCell]
        · simp [setCell, setRow, hq, (by decide : ((0 : Fin 2) = 1) = False)]
      have hcompare2 : ∀ ms : List (List (Fin P)),
          MatchDetections.compare_matches hP (2 * P + 1)
            (⟨setRow (setRow (fun _ _ => (0 : α)) 0 (rowOf 0)) 1 (rowOf 1),
              Function.update (fun _ => (0 : α)) pstar (rowOf 0 pstar),
              [(pstar, (0 : Fin 2))], ms⟩ : MatchState 2 P α) pstar 1
            (rowOf 1 pstar) =
          .ok ⟨setCell (setRow (setRow (fun _ _ => (0 : α)) 0 (rowOf 0)) 1
              (rowOf 1)) 0 pstar 0,
            Function.update (Function.update (Function.update
              (fun _ => (0 : α)) pstar (rowOf 0 pstar)) pstar
              (rowOf 1 pstar)) (argmaxRow row0x hP)
              (row0x (argmaxRow row0x hP)),
            [(pstar, (1 : Fin 2)), (argmaxRow row0x hP, (0 : Fin 2))],
            ms⟩ := by
        intro ms
        have hstep := compare_dup_better hP (2 * P)
          (⟨setRow (setRow (fun _ _ => (0 : α)) 0 (rowOf 0)) 1 (rowOf 1),
            Function.update (fun _ => (0 : α)) pstar (rowOf 0 pstar),
            [(pstar, (0 : Fin 2))], ms⟩ : MatchState 2 P α) pstar 1 0
          (rowOf 1 pstar) (by simp) (by simpa using hcase)
        rw [hstep]
        dsimp only
        rw [hrowA]
        rw [if_pos hpos2]
        rw [List.erase_cons_head, List.nil_append]
        rw [show (2 * P : ℕ) = 2 * P - 1 + 1 from by omega]
        exact compare_fresh hP (2 * P - 1) _ (argmaxRow row0x hP) 0
          (row0x (argmaxRow row0x hP)) (by simp [Ne.symm hne20]) hpos2
      have hstep1 : ∃ grp2 : List (List (Fin P)),
          matchStep rowOf group hP
            (⟨setRow (fun _ _ => (0 : α)) 0 (rowOf 0),
              Function.update (fun _ => (0 : α)) pstar (rowOf 0 pstar),
              [(pstar, (0 : Fin 2))], grp1⟩ : MatchState 2 P α) 1 = .ok
            ⟨setCell (setRow (setRow (fun _ _ => (0 : α)) 0 (rowOf 0)) 1
                (rowOf 1)) 0 pstar 0,
              Function.update (Function.update (Function.update
                (fun _ => (0 : α)) pstar (rowOf 0 pstar)) pstar
                (rowOf 1 pstar)) (argmaxRow row0x hP)
                (row0x (argmaxRow row0x hP)),
              [(pstar, (1 : Fin 2)), (argmaxRow row0x hP, (0 : Fin 2))],
              grp2⟩ := by
        cases group with
        | false =>
          refine ⟨grp1, ?_⟩
          unfold matchStep
          dsimp only
          rw [if_neg Bool.false_ne_true]
          dsimp only
          rw [setRow_self]
          rw [argmaxRow_eq_of_strict (rowOf 1) hP pstar h1]
          exact hcompare2 _
        | true =>
          refine ⟨grp1 ++ [(List.finRange P).filter (fun p =>
            decide (setRow (setRow ((fun _ _ => (0 : α)) : Fin 2 → Fin P → α) 0 (rowOf 0)) 1
              (rowOf 1) 1 p ≠ 0))], ?_⟩
          unfold matchStep
          dsimp only
          rw [if_pos rfl]
          dsimp only
          rw [setRow_self]
          rw [argmaxRow_eq_of_strict (rowOf 1) hP pstar h1]
          exact hcompare2 _
      obtain ⟨grp2, hstep1⟩ := hstep1
      rw [hstep1]
      simp only [ok_bind, pure_bind]
      simp only [List.foldlM_cons, List.foldlM_nil]
      rw [show removeMatched (List.finRange P) pstar =
        .ok ((List.finRange P).erase pstar) from by
          rw [removeMatched, if_pos (List.mem_finRange pstar)]]
      simp only [ok_bind, pure_bind]
      rw [show removeMatched ((List.finRange P).erase pstar)
          (argmaxRow row0x hP) =
        .ok (((List.finRange P).erase pstar).erase (argmaxRow row0x hP))
        from by
          rw [removeMatched,
            if_pos ((List.mem_erase_of_ne hne20).mpr (List.mem_finRange _))]]
      simp only [ok_bind, pure_bind]
      rw [show removeMatched [(0 : Fin 2), 1] 1 = .ok [(0 : Fin 2)] from rfl]
      simp only [ok_bind, pure_bind]
      rw [show removeMatched [(0 : Fin 2)] 0 = .ok ([] : List (Fin 2))
        from rfl]
      simp only [ok_bind, pure_bind]
      refine ⟨_, rfl, ?_, ?_⟩
      · dsimp only
        rw [if_pos hcase, if_pos hpos2]
      · dsimp only
        rw [if_pos hcase, if_pos hpos2]
    · have hrowA : (setCell (setRow (setRow ((fun _ _ => (0 : α)) : Fin 2 → Fin P → α) 0
          (rowOf 0)) 1 (rowOf 1)) 0 pstar 0) 0 = row0x := by
        funext q
        rw [hrow0x]
        by_cases hq : q = pstar
        · subst hq
          simp [setCell]
        · simp [setCell, setRow, hq, (by decide : ((0 : Fin 2) = 1) = False)]
      have hcompare2 : ∀ ms : List (List (Fin P)),
          MatchDetections.compare_matches hP (2 * P + 1)
            (⟨setRow (setRow (fun _ _ => (0 : α)) 0 (rowOf 0)) 1 (rowOf 1),
              Function.update (fun _ => (0 : α)) pstar (rowOf 0 pstar),
              [(pstar, (0 : Fin 2))], ms⟩ : MatchState 2 P α) pstar 1
            (rowOf 1 pstar) =
          .ok ⟨setCell (setRow (setRow (fun _ _ => (0 : α)) 0 (rowOf 0)) 1
              (rowOf 1)) 0 pstar 0,
            Function.update (Function.update (fun _ => (0 : α)) pstar
              (rowOf 0 pstar)) pstar (rowOf 1 pstar),
            [(pstar, (1 : Fin 2))], ms⟩ := by
        intro ms
        have hstep := compare_dup_better hP (2 * P)
          (⟨setRow (setRow (fun _ _ => (0 : α)) 0 (rowOf 0)) 1 (rowOf 1),
            Function.update (fun _ => (0 : α)) pstar (rowOf 0 pstar),
            [(pstar, (0 : Fin 2))], ms⟩ : MatchState 2 P α) pstar 1 0
          (rowOf 1 pstar) (by simp) (by simpa using hcase)
        rw [hstep]
        dsimp only
        rw [hrowA]
        rw [if_neg hpos2]
        rw [List.erase_cons_head, List.nil_append]
      have hstep1 : ∃ grp2 : List (List (Fin P)),
          matchStep rowOf group hP
            (⟨setRow (fun _ _ => (0 : α)) 0 (rowOf 0),
              Function.update (fun _ => (0 : α)) pstar (rowOf 0 pstar),
              [(pstar, (0 : Fin 2))], grp1⟩ : MatchState 2 P α) 1 = .ok
            ⟨setCell (setRow (setRow (fun _ _ => (0 : α)) 0 (rowOf 0)) 1
                (rowOf 1)) 0 pstar 0,
              Function.update (Function.update (fun _ => (0 : α)) pstar
                (rowOf 0 pstar)) pstar (rowOf 1 pstar),
              [(pstar, (1 : Fin 2))], grp2⟩ := by
        cases group with
        | false =>
          refine ⟨grp1, ?_⟩
          unfold matchStep
          dsimp only
          rw [if_neg Bool.false_ne_true]
          dsimp only
          rw [setRow_self]
          rw [argmaxRow_eq_of_strict (rowOf 1) hP pstar h1]
          exact hcompare2 _
        | true =>
          refine ⟨grp1 ++ [(List.finRange P).filter (fun p =>
            decide (setRow (setRow ((fun _ _ => (0 : α)) : Fin 2 → Fin P → α) 0 (rowOf 0)) 1
              (rowOf 1) 1 p ≠ 0))], ?_⟩
          unfold matchStep
          dsimp only
          rw [if_pos rfl]
          dsimp only
          rw [setRow_self]
          rw [argmaxRow_eq_of_strict (rowOf 1) hP pstar h1]
          exact hcompare2 _
      obtain ⟨grp2, hstep1⟩ := hstep1
      rw [hstep1]
      simp only [ok_bind, pure_bind]
      simp only [List.foldlM_cons, List.foldlM_nil]
      rw [show removeMatched (List.finRange P) pstar =
        .ok ((List.finRange P).erase pstar) from by
          rw [removeMatched, if_pos (List.mem_finRange pstar)]]
      simp only [ok_bind, pure_bind]
      rw [show removeMatched [(0 : Fin 2), 1] 1 = .ok [(0 : Fin 2)] from rfl]
      simp only [ok_bind, pure_bind]
      refine ⟨_, rfl, ?_, ?_⟩
      · dsimp only
        rw [if_pos hcase, if_neg hpos2]
      · dsimp only
        rw [if_pos hcase, if_neg hpos2]
  · by_cases hpos2 : 0 < row1x (argmaxRow row1x hP)
    · have hne21 : argmaxRow row1x hP ≠ pstar := by
        intro he
        rw [he, hrow1x] at hpos2
        simp at hpos2
      have hrowB : (setCell (setRow (setRow ((fun _ _ => (0 : α)) : Fin 2 → Fin P → α) 0
          (rowOf 0)) 1 (rowOf 1)) 1 pstar 0) 1 = row1x := by
        funext q
        rw [hrow1x]
        by_cases hq : q = pstar
        · subst hq
          simp [setCell]
        · simp [setCell, setRow, hq]
      have hcompare2 : ∀ ms : List (List (Fin P)),
          MatchDetections.compare_matches hP (2 * P + 1)
            (⟨setRow (setRow (fun _ _ => (0 : α)) 0 (rowOf 0)) 1 (rowOf 1),
              Function.update (fun _ => (0 : α)) pstar (rowOf 0 pstar),
              [(pstar, (0 : Fin 2))], ms⟩ : MatchState 2 P α) pstar 1
            (rowOf 1 pstar) =
          .ok ⟨setCell (setRow (setRow (fun _ _ => (0 : α)) 0 (rowOf 0)) 1
              (rowOf 1)) 1 pstar 0,
            Function.update (Function.update (fun _ => (0 : α)) pstar
              (rowOf 0 pstar)) (argmaxRow row1x hP)
              (row1x (argmaxRow row1x hP)),
            [(pstar, (0 : Fin 2)), (argmaxRow row1x hP, (1 : Fin 2))],
            ms⟩ := by
        intro ms
        have hstep := compare_dup_keep hP (2 * P)
          (⟨setRow (setRow (fun _ _ => (0 : α)) 0 (rowOf 0)) 1 (rowOf 1),
            Function.update (fun _ => (0 : α)) pstar (rowOf 0 pstar),
            [(pstar, (0 : Fin 2))], ms⟩ : MatchState 2 P α) pstar 1 0
          (rowOf 1 pstar) (by simp) (by simpa using hcase)
        rw [hstep]
        dsimp only
        rw [hrowB]
        rw [if_pos hpos2]
        rw [show (2 * P : ℕ) = 2 * P - 1 + 1 from by omega]
        exact compare_fresh hP (2 * P - 1) _ (argmaxRow row1x hP) 1
          (row1x (argmaxRow row1x hP)) (by simp [Ne.symm hne21]) hpos2
      have hstep1 : ∃ grp2 : List (List (Fin P)),
          matchStep rowOf group hP
            (⟨setRow (fun _ _ => (0 : α)) 0 (rowOf 0),
              Function.update (fun _ => (0 : α)) pstar (rowOf 0 pstar),
              [(pstar, (0 : Fin 2))], grp1⟩ : MatchState 2 P α) 1 = .ok
            ⟨setCell (setRow (setRow (fun _ _ => (0 : α)) 0 (rowOf 0)) 1
                (rowOf 1)) 1 pstar 0,
              Function.update (Function.update (fun _ => (0 : α)) pstar
                (rowOf 0 pstar)) (argmaxRow row1x hP)
                (row1x (argmaxRow row1x hP)),
              [(pstar, (0 : Fin 2)), (argmaxRow row1x hP, (1 : Fin 2))],
              grp2⟩ := by
        cases group with
        | false =>
          refine ⟨grp1, ?_⟩
          unfold matchStep
          dsimp only
          rw [if_neg Bool.false_ne_true]
          dsimp only
          rw [setRow_self]
          rw [argmaxRow_eq_of_strict (rowOf 1) hP pstar h1]
          exact hcompare2 _
        | true =>
          refine ⟨grp1 ++ [(List.finRange P).filter (fun p =>
            decide (setRow (setRow ((fun _ _ => (0 : α)) : Fin 2 → Fin P → α) 0 (rowOf 0)) 1
              (rowOf 1) 1 p ≠ 0))], ?_⟩
          unfold matchStep
          dsimp only
          rw [if_pos rfl]
          dsimp only
          rw [setRow_self]
          rw [argmaxRow_eq_of_strict (rowOf 1) hP pstar h1]
          exact hcompare2 _
      obtain ⟨grp2, hstep1⟩ := hstep1
      rw [hstep1]
      simp only [ok_bind, pure_bind]
      simp only [List.foldlM_cons, List.foldlM_nil]
      rw [show removeMatched (List.finRange P) pstar =
        .ok ((List.finRange P).erase pstar) from by
          rw [removeMatched, if_pos (List.mem_finRange pstar)]]
      simp only [ok_bind, pure_bind]
      rw [show removeMatched ((List.finRange P).erase pstar)
          (argmaxRow row1x hP) =
        .ok (((List.finRange P).erase pstar).erase (argmaxRow row1x hP))
        from by
          rw [removeMatched,
            if_pos ((List.mem_erase_of_ne hne21).mpr (List.mem_finRange _))]]
      simp only [ok_bind, pure_bind]
      rw [show removeMatched [(0 : Fin 2), 1] 0 = .ok [(1 : Fin 2)] from rfl]
      simp only [ok_bind, pure_bind]
      rw [show removeMatched [(1 : Fin 2)] 1 = .ok ([] : List (Fin 2))
        from rfl]
      simp only [ok_bind, pure_bind]
      refine ⟨_, rfl, ?_, ?_⟩
      · dsimp only
        rw [if_neg hcase, if_pos hpos2]
      · dsimp only
        rw [if_neg hcase, if_pos hpos2]
    · have hrowB : (setCell (setRow (setRow ((fun _ _ => (0 : α)) : Fin 2 → Fin P → α) 0
          (rowOf 0)) 1 (rowOf 1)) 1 pstar 0) 1 = row1x := by
        funext q
        rw [hrow1x]
        by_cases hq : q = pstar
        · subst hq
          simp [setCell]
        · simp [setCell, setRow, hq]
      have hcompare2 : ∀ ms : List (List (Fin P)),
          MatchDetections.compare_matches hP (2 * P + 1)
            (⟨setRow (setRow (fun _ _ => (0 : α)) 0 (rowOf 0)) 1 (rowOf 1),
              Function.update (fun _ => (0 : α)) pstar (rowOf 0 pstar),
              [(pstar, (0 : Fin 2))], ms⟩ : MatchState 2 P α) pstar 1
            (rowOf 1 pstar) =
          .ok ⟨setCell (setRow (setRow (fun _ _ => (0 : α)) 0 (rowOf 0)) 1
              (rowOf 1)) 1 pstar 0,
            Function.update (fun _ => (0 : α)) pstar (rowOf 0 pstar),
            [(pstar, (0 : Fin 2))], ms⟩ := by
        intro ms
        have hstep := compare_dup_keep hP (2 * P)
          (⟨setRow (setRow (fun _ _ => (0 : α)) 0 (rowOf 0)) 1 (rowOf 1),
            Function.update (fun _ => (0 : α)) pstar (rowOf 0 pstar),
            [(pstar, (0 : Fin 2))], ms⟩ : MatchState 2 P α) pstar 1 0
          (rowOf 1 pstar) (by simp) (by simpa using hcase)
        rw [hstep]
        dsimp only
        rw [hrowB]
        rw [if_neg hpos2]
      have hstep1 : ∃ grp2 : List (List (Fin P)),
          matchStep rowOf group hP
            (⟨setRow (fun _ _ => (0 : α)) 0 (rowOf 0),
              Function.update (fun _ => (0 : α)) pstar (rowOf 0 pstar),
              [(pstar, (0 : Fin 2))], grp1⟩ : MatchState 2 P α) 1 = .ok
            ⟨setCell (setRow (setRow (fun _ _ => (0 : α)) 0 (rowOf 0)) 1
                (rowOf 1)) 1 pstar 0,
              Function.update (fun _ => (0 : α)) pstar (rowOf 0 pstar),
              [(pstar, (0 : Fin 2))], grp2⟩ := by
        cases group with
        | false =>
          refine ⟨grp1, ?_⟩
          unfold matchStep
          dsimp only
          rw [if_neg Bool.false_ne_true]
          dsimp only
          rw [setRow_self]
          rw [argmaxRow_eq_of_strict (rowOf 1) hP pstar h1]
          exact hcompare2 _
        | true =>
          refine ⟨grp1 ++ [(List.finRange P).filter (fun p =>
            decide (setRow (setRow ((fun _ _ => (0 : α)) : Fin 2 → Fin P → α) 0 (rowOf 0)) 1
              (rowOf 1) 1 p ≠ 0))], ?_⟩
          unfold matchStep
          dsimp only
          rw [if_pos rfl]
          dsimp only
          rw [setRow_self]
          rw [argmaxRow_eq_of_strict (rowOf 1) hP pstar h1]
          exact hcompare2 _
      obtain ⟨grp2, hstep1⟩ := hstep1
      rw [hstep1]
      simp only [ok_bind, pure_bind]
      simp only [List.foldlM_cons, List.foldlM_nil]
      rw [show removeMatched (List.finRange P) pstar =
        .ok ((List.finRange P).erase pstar) from by
          rw [removeMatched, if_pos (List.mem_finRange pstar)]]
      simp only [ok_bind, pure_bind]
      rw [show removeMatched [(0 : Fin 2), 1] 0 = .ok [(1 : Fin 2)] from rfl]
      simp only [ok_bind, pure_bind]
      refine ⟨_, rfl, ?_, ?_⟩
      · dsimp only
        rw [if_neg hcase, if_neg hpos2]
      · dsimp only
        rw [if_neg hcase, if_neg hpos2]

/-- Claim C3: whenever two ground truths both have their highest
similarity against the same single prediction `pstar` (strict peak,
positive score), the completed `match()` run assigns `pstar` to the ground
truth with the strictly higher similarity — on an exact tie the
already-recorded match (ground truth 0, processed first) is kept — and the
losing ground truth is matched to its next-best candidate (the argmax of
its row with `pstar` zeroed out, `row0x` resp. `row1x`) exactly when that
candidate's similarity is positive; otherwise it is left unmatched. -/
theorem match_conflict_resolution {P : ℕ} {α : Type} [LinearOrder α]
    [Zero α] (rowOf : Fin 2 → Fin P → α) (group : Bool) (hP : 0 < P)
    (pstar : Fin P)
    (h0 : ∀ q, q ≠ pstar → rowOf 0 q < rowOf 0 pstar)
    (h1 : ∀ q, q ≠ pstar → rowOf 1 q < rowOf 1 pstar)
    (hs0 : 0 < rowOf 0 pstar) (hs1 : 0 < rowOf 1 pstar)
    (row0x row1x : Fin P → α)
    (hrow0x : row0x = fun q => if q = pstar then 0 else rowOf 0 q)
    (hrow1x : row1x = fun q => if q = pstar then 0 else rowOf 1 q) :
    ∃ res : MatchResult 2 P α,
      MatchDetections.matchFn rowOf group = .ok res ∧
      res.state.index_matches =
        (if rowOf 0 pstar < rowOf 1 pstar then
          (pstar, (1 : Fin 2)) ::
            (if 0 < row0x (argmaxRow row0x hP) then
              [(argmaxRow row0x hP, (0 : Fin 2))] else [])
         else
          (pstar, (0 : Fin 2)) ::
            (if 0 < row1x (argmaxRow row1x hP) then
              [(argmaxRow row1x hP, (1 : Fin 2))] else [])) ∧
      res.index_unmatched_gt =
        (if rowOf 0 pstar < rowOf 1 pstar then
          (if 0 < row0x (argmaxRow row0x hP) then [] else [(0 : Fin 2)])
         else
          (if 0 < row1x (argmaxRow row1x hP) then [] else [(1 : Fin 2)])) :=
  conflict_scenario rowOf group hP pstar h0 h1 hs0 hs1 row0x row1x
    hrow0x hrow1x

/-- Witness for C3 at a concrete integer grid: ground truths 0 and 1 both
peak at prediction 0 (scores 2 and 4); ground truth 1 wins, and ground
truth 0 is rematched to prediction 1 (score 1). -/
theorem match_conflict_resolution_witness :
    ∃ res : MatchResult 2 2 ℤ,
      MatchDetections.matchFn
        (fun g p => if g = 0 then (if p = 0 then (2 : ℤ) else 1)
          else (if p = 0 then 4 else 0)) false = .ok res ∧
      res.state.index_matches = [((0 : Fin 2), (1 : Fin 2)), (1, 0)] ∧
      res.index_unmatched_gt = [] := by
  obtain ⟨res, hok, hm, hu⟩ := match_conflict_resolution
    ((fun g p => if g = 0 then (if p = 0 then (2 : ℤ) else 1)
      else (if p = 0 then 4 else 0)) : Fin 2 → Fin 2 → ℤ) false (by decide) 0
    (by decide) (by decide) (by decide) (by decide) _ _ rfl rfl
  refine ⟨res, hok, ?_, ?_⟩
  · rw [hm]
    decide
  · rw [hu]
    decide

/-- `store_metric` with the IoU metric on the example boxes: ground truth
`[0, 0, 2, 4]` against prediction `[0, 0, 2, 2]` overlaps on a 2×2 square
out of a union of area 8. -/
theorem store_iou_half :
    MatchDetections.store_metric "iou" 1 [(0 : ℝ), 0, 2, 4] [0, 0, 2, 2] =
      .ok (1 / 2) := by
  unfold MatchDetections.store_metric
  rw [if_pos rfl]
  unfold iou_2d
  norm_num [max_def, min_def]

/-- `store_metric` with the IoU metric on identical boxes `[0, 0, 2, 2]`. -/
theorem store_iou_one :
    MatchDetections.store_metric "iou" 1 [(0 : ℝ), 0, 2, 2] [0, 0, 2, 2] =
      .ok 1 := by
  unfold MatchDetections.store_metric
  rw [if_pos rfl]
  unfold iou_2d
  norm_num [max_def, min_def]

/-- The `store_metric` grid rows of the example run: IoU ½ for ground
truth 0 and IoU 1 for ground truth 1 against the single prediction. -/
theorem buildRows_example :
    MatchDetections.buildRows (MatchDetections.store_metric "iou" 1)
      [[(0 : ℝ), 0, 2, 4], [0, 0, 2, 2]] [[0, 0, 2, 2]] =
      .ok [[(1 : ℝ) / 2], [1]] := by
  simp only [MatchDetections.buildRows, List.mapM_cons, List.mapM_nil,
    store_iou_half, store_iou_one, ok_bind, pure_bind]
  rfl

/-- The example `match()` run: two ground truths compete for the only
prediction; ground truth 1 (IoU 1) wins and ground truth 0 (IoU ½) is left
unmatched. -/
theorem matchRun_example :
    ∃ res : MatchResult 2 1 ℝ,
      MatchDetections.matchRun "iou" 1 [[0, 0, 2, 4], [0, 0, 2, 2]]
        [[0, 0, 2, 2]] false = .ok res ∧
      res.state.index_matches = [((0 : Fin 1), (1 : Fin 2))] ∧
      res.index_unmatched_gt = [(0 : Fin 2)] := by
  obtain ⟨res, hok, hm, hu⟩ := conflict_scenario
    (fun g p => (([[(1 : ℝ) / 2], [1]]).getD (g : ℕ) []).getD (p : ℕ) 0)
    false (by norm_num) 0
    (fun q hq => absurd (Fin.eq_zero q) hq)
    (fun q hq => absurd (Fin.eq_zero q) hq)
    (by norm_num) (by norm_num) (fun _ => 0) (fun _ => 0)
    (by funext q; simp [Fin.eq_zero q])
    (by funext q; simp [Fin.eq_zero q])
  have hAB : (([[(1 : ℝ) / 2], [1]]).getD (((0 : Fin 2) : ℕ)) []).getD
      (((0 : Fin 1) : ℕ)) 0 <
      (([[(1 : ℝ) / 2], [1]]).getD (((1 : Fin 2) : ℕ)) []).getD
      (((0 : Fin 1) : ℕ)) 0 := by
    norm_num
  rw [if_pos hAB, if_neg (lt_irrefl (0 : ℝ))] at hm hu
  refine ⟨res, ?_, hm, hu⟩
  unfold MatchDetections.matchRun MatchDetections.matchWith
  rw [buildRows_example, ok_bind]
  exact hok

/-- Claim C2, counterexample: in the example run, ground truth 0 has
nonzero IoU (½) with the only prediction, yet ends up unmatched — the
prediction is taken by ground truth 1 and ground truth 0's remaining
candidates are exhausted, refuting "every ground truth with at least one
prediction of nonzero similarity ends up matched". -/
theorem match_completeness_counterexample :
    ∃ res : MatchResult 2 1 ℝ,
      MatchDetections.matchRun "iou" 1 [[0, 0, 2, 4], [0, 0, 2, 2]]
        [[0, 0, 2, 2]] false = .ok res ∧
      MatchDetections.store_metric "iou" 1 [0, 0, 2, 4] [0, 0, 2, 2] =
        .ok (1 / 2) ∧
      (1 / 2 : ℝ) ≠ 0 ∧
      (0 : Fin 2) ∉ gtis res.state ∧
      (0 : Fin 2) ∈ res.index_unmatched_gt := by
  obtain ⟨res, hok, hm, hu⟩ := matchRun_example
  refine ⟨res, hok, store_iou_half, by norm_num, ?_, ?_⟩
  · simp only [gtis, hm]
    decide
  · rw [hu]
    decide

/-- Claim C2, amended: after a completed `match()` run, every ground truth
is matched, or else every prediction with positive similarity to it is
matched — to a different ground truth.  (A ground truth with a nonzero
candidate can still end up unmatched when all its candidates are taken by
other ground truths, as the counterexample shows.) -/
theorem match_completeness_amended (metric : String) (L : ℤ)
    (gts preds : List (List ℝ)) (group : Bool)
    (res : MatchResult gts.length preds.length ℝ)
    (h : MatchDetections.matchRun metric L gts preds group = .ok res)
    (g : Fin gts.length) :
    g ∈ gtis res.state ∨
      ∀ (p : Fin preds.length) (v : ℝ),
        MatchDetections.store_metric metric L (gts.getD (g : ℕ) [])
          (preds.getD (p : ℕ) []) = .ok v → 0 < v →
        ∃ m ∈ res.state.index_matches, m.1 = p ∧ m.2 ≠ g := by
  unfold MatchDetections.matchRun MatchDetections.matchWith at h
  obtain ⟨rows, hbuild, hfn⟩ := except_bind_ok h
  obtain ⟨hinv, hall, hchange⟩ := matchFn_ok _ group res hfn
  rcases hall g with hg | hrow
  · exact Or.inl hg
  · by_cases hg : g ∈ gtis res.state
    · exact Or.inl hg
    · refine Or.inr fun p v hv hvpos => ?_
      obtain ⟨hlen, hrows⟩ := mapM_ok _ gts rows hbuild
      have hrow_g := hrows (g : ℕ) [] [] g.isLt
      obtain ⟨hlen2, hcells⟩ := mapM_ok _ preds (rows.getD (g : ℕ) []) hrow_g
      have hcell := hcells (p : ℕ) [] 0 p.isLt
      rw [hv] at hcell
      have hveq : v = (rows.getD (g : ℕ) []).getD (p : ℕ) 0 :=
        Except.ok.inj hcell
      have hne : res.state.iou_grid g p ≠
          (rows.getD (g : ℕ) []).getD (p : ℕ) 0 := by
        rw [← hveq]
        intro he
        have h1 := hrow p
        rw [he] at h1
        exact absurd hvpos (not_lt.mpr h1)
      have hp := hchange g p hne
      obtain ⟨m, hmem, hm1⟩ := List.mem_map.1 hp
      refine ⟨m, hmem, hm1, fun h2 => hg ?_⟩
      rw [← h2]
      exact List.mem_map_of_mem Prod.snd hmem

/-- Witness for C2's amended theorem at the one-ground-truth,
zero-prediction run, whose early return is definitionally computable. -/
theorem match_completeness_amended_witness :
    (0 : Fin 1) ∈ gtis soloGtResult.state ∨
      ∀ (p : Fin 0) (v : ℝ),
        MatchDetections.store_metric "iou" 1
          ([[(0 : ℝ), 0, 2, 2]].getD (((0 : Fin 1) : ℕ)) [])
          (([] : List (List ℝ)).getD ((p : ℕ)) []) = .ok v → 0 < v →
        ∃ m ∈ soloGtResult.state.index_matches, m.1 = p ∧ m.2 ≠ (0 : Fin 1) :=
  match_completeness_amended "iou" 1 [[(0 : ℝ), 0, 2, 2]] [] false
    soloGtResult rfl ((0 : Fin 1))

end InventoryScanner
